import Mathlib

/-!
# Treasure Hunter: the game model and its controller

A shallow embedding of `src/game-js.js`: the class `GameModel` (grid, hunter
position, treasure ledger, score, rounds) and the stage logic of
`GameController` (`endSetupStage`, `handleKeyDown`, `endPlayStage` and the two
gated event listeners).  The view only reads the model and writes to the DOM, so
its calls are dropped.

Conventions of the embedding.

* A cell object `{ type: ..., value: ... }` is a value of `Cell`.
* The grid is a list of rows.  Reading `this.grid[r][c].type` where the array
  has no such cell raises a `TypeError` in JavaScript; every operation returns
  an `Option` and `none` stands for that fault.
* Indices, score and rounds are the integer values of Numbers (`Nat`).  The
  arithmetic on them is binary64: `score += value` and `rounds++` are `numAdd`,
  the product `Math.random() * length` is `float64Mul` and the division of
  `calculatePerformanceIndex` is `float64Div`, each the exact result rounded to
  the nearest binary64, ties to the even significand (section "Numbers").
* The treasure counts are `Int`, with exact `++` and `--`: a count moves by one
  per treasure cell placed or collected, and stays far inside the range
  `-2 ^ 53 .. 2 ^ 53` where binary64 is exact on integers.
* `Math.random()` is a parameter `rnd : Draw` of the operations which may call
  it: the binary64 number `sig / 2 ^ shift` the call returns.  The library
  promises a value in `[0, 1)`, which is `Draw.Valid`.
-/

namespace TreasureHunter

/-- A cell object of the grid: `{type:'empty'}`, `{type:'obstacle'}`,
`{type:'treasure', value}` or `{type:'hunter'}`. -/
inductive Cell where
  | empty
  | obstacle
  | treasure (value : Nat)
  | hunter
  deriving DecidableEq, Repr

/-- The field `gameStage`: `'setup'`, `'play'` or `'end'`. -/
inductive Stage where
  | setup
  | play
  | end_
  deriving DecidableEq, Repr

/-- The object `treasureCounts = { 5: 0, 6: 0, 7: 0, 8: 0 }`. -/
structure TreasureCounts where
  c5 : Int
  c6 : Int
  c7 : Int
  c8 : Int
  deriving DecidableEq, Repr

/-- The entry `treasureCounts[v]` for one of the four keys.  The object has no
other key (JavaScript reads `undefined` there); the embedding gives 0. -/
def TreasureCounts.get (t : TreasureCounts) (v : Nat) : Int :=
  if v = 5 then t.c5 else if v = 6 then t.c6 else if v = 7 then t.c7
  else if v = 8 then t.c8 else 0

/-- The statement `treasureCounts[v]++`.  For a key other than 5..8 JavaScript
stores `NaN` under a new key and the four entries keep their values. -/
def TreasureCounts.inc (t : TreasureCounts) (v : Nat) : TreasureCounts :=
  if v = 5 then { t with c5 := t.c5 + 1 }
  else if v = 6 then { t with c6 := t.c6 + 1 }
  else if v = 7 then { t with c7 := t.c7 + 1 }
  else if v = 8 then { t with c8 := t.c8 + 1 }
  else t

/-- The statement `treasureCounts[v]--` (see `inc` for other keys). -/
def TreasureCounts.dec (t : TreasureCounts) (v : Nat) : TreasureCounts :=
  if v = 5 then { t with c5 := t.c5 - 1 }
  else if v = 6 then { t with c6 := t.c6 - 1 }
  else if v = 7 then { t with c7 := t.c7 - 1 }
  else if v = 8 then { t with c8 := t.c8 - 1 }
  else t

/-- The grid: an array of rows, each an array of cells. -/
abbrev Grid := List (List Cell)

/-- The read `grid[r][c]`; `none` when the matrix has no such cell. -/
def Grid.cell (g : Grid) (r c : Nat) : Option Cell :=
  match g[r]? with
  | some cells => cells[c]?
  | none => none

/-- The write `grid[r][c] = x` to a cell the matrix has. -/
def Grid.setCell (g : Grid) (r c : Nat) (x : Cell) : Grid :=
  match g[r]? with
  | some cells => g.set r (cells.set c x)
  | none => g

/-- The fields of `GameModel`. -/
structure GameModel where
  rows : Nat
  cols : Nat
  grid : Grid
  gameStage : Stage
  hunterPosition : Option (Nat × Nat)
  rounds : Nat
  score : Nat
  treasureCounts : TreasureCounts
  deriving DecidableEq, Repr

/-- The method `createEmptyGrid`. -/
def createEmptyGrid (rows cols : Nat) : Grid :=
  List.replicate rows (List.replicate cols Cell.empty)

/-- The constructor `new GameModel(rows, cols)`. -/
def GameModel.new (rows cols : Nat) : GameModel :=
  { rows := rows
    cols := cols
    grid := createEmptyGrid rows cols
    gameStage := Stage.setup
    hunterPosition := none
    rounds := 0
    score := 0
    treasureCounts := { c5 := 0, c6 := 0, c7 := 0, c8 := 0 } }

/-- The method `placeObject(row, col, obj)`: the returned boolean and the model
after the call. -/
def GameModel.placeObject (m : GameModel) (row col : Nat) (obj : Cell) :
    Option (Bool × GameModel) :=
  match m.grid.cell row col with
  | none => none
  | some old =>
    if old ≠ Cell.empty then some (false, m)
    else
      let m1 := { m with grid := m.grid.setCell row col obj }
      let m2 :=
        match obj with
        | Cell.treasure v => { m1 with treasureCounts := m1.treasureCounts.inc v }
        | _ => m1
      match obj with
      | Cell.hunter =>
        if m2.hunterPosition ≠ none then some (false, m2)
        else some (true, { m2 with hunterPosition := some (row, col) })
      | _ => some (true, m2)

/-- The method `getTotalTreasures`. -/
def GameModel.getTotalTreasures (m : GameModel) : Int :=
  m.treasureCounts.c5 + m.treasureCounts.c6 + m.treasureCounts.c7 + m.treasureCounts.c8

/-- The pairs `(i, j)` in the order of the two nested loops
`for i < rows`, `for j < cols`. -/
def allPositions (rows cols : Nat) : List (Nat × Nat) :=
  (List.range rows).flatMap fun i => (List.range cols).map fun j => (i, j)

/-- The array `emptyCells` built by the loops of `placeRandomObstacle`. -/
def GameModel.emptyCells (m : GameModel) : List (Nat × Nat) :=
  (allPositions m.rows m.cols).filter fun p => m.grid.cell p.1 p.2 = some Cell.empty

/-! ## Numbers

A Number is a binary64: `sig * 2 ^ e` with `sig < 2 ^ 53`.  An arithmetic
operation returns the binary64 nearest to the exact result, the one with the
even significand when two are equally near. -/

/-- The integer nearest to `a / b`, ties to the even one. -/
def roundHalfEven (a b : Nat) : Nat :=
  let q := a / b
  let r := a % b
  if 2 * r < b then q
  else if b < 2 * r then q + 1
  else if q % 2 = 0 then q
  else q + 1

/-- Search, from `s` upward and at most `fuel` times, for the first shift with
`2 ^ 52 ≤ a * 2 ^ s / b`. -/
def shiftFrom (a b : Nat) : Nat → Nat → Nat
  | 0, s => s
  | fuel + 1, s => if b * 2 ^ 52 ≤ a * 2 ^ s then s else shiftFrom a b fuel (s + 1)

/-- Search, from `t` upward and at most `fuel` times, for the first `t` with
`n < 2 ^ (53 + t)`. -/
def downShiftFrom (n : Nat) : Nat → Nat → Nat
  | 0, t => t
  | fuel + 1, t => if n < 2 ^ (53 + t) then t else downShiftFrom n fuel (t + 1)

/-- The binary64 nearest to the integer `n` (below `2 ^ 1024`): `n` itself up to
`2 ^ 53`, and above that the nearest multiple of `2 ^ t` with a significand of 53
bits. -/
def float64OfNat (n : Nat) : Nat :=
  roundHalfEven n (2 ^ downShiftFrom n 971 0) * 2 ^ downShiftFrom n 971 0

/-- The sum `a + b` of two Numbers with integer values. -/
def numAdd (a b : Nat) : Nat :=
  float64OfNat (a + b)

/-- A value returned by `Math.random()`: the binary64 number `sig / 2 ^ shift`. -/
structure Draw where
  sig : Nat
  shift : Nat
  deriving DecidableEq, Repr

/-- The draw is a binary64 number of the range `[0, 1)` of `Math.random()`: a
significand below `2 ^ 53`, a multiple of `2 ^ -1074`, a value below 1. -/
def Draw.Valid (rnd : Draw) : Prop :=
  rnd.sig < 2 ^ 53 ∧ rnd.shift ≤ 1074 ∧ rnd.sig < 2 ^ rnd.shift

instance (rnd : Draw) : Decidable rnd.Valid := by
  unfold Draw.Valid
  infer_instance

/-- The Number `Math.random() * n` for the draw `rnd` and an array length `n`
(an integer below `2 ^ 32`): the binary64 nearest to the exact product
`sig * n / 2 ^ shift`, as the pair `(m, s)` of value `m / 2 ^ s`.  The shift `s`
normalises the significand to `2 ^ 52 ≤ m`, and stops at 1074, the finest
spacing of binary64. -/
def float64Mul (rnd : Draw) (n : Nat) : Nat × Nat :=
  if rnd.sig * n = 0 then (0, 0)
  else
    (roundHalfEven (rnd.sig * n * 2 ^ shiftFrom (rnd.sig * n) (2 ^ rnd.shift) 1074 0)
        (2 ^ rnd.shift),
      shiftFrom (rnd.sig * n) (2 ^ rnd.shift) 1074 0)

/-- The expression `Math.floor(Math.random() * n)` for the draw `rnd`: the floor
of the binary64 product. -/
def randomIndex (rnd : Draw) (n : Nat) : Nat :=
  (float64Mul rnd n).1 / 2 ^ (float64Mul rnd n).2

/-- The method `placeRandomObstacle`, with `rnd` the value of `Math.random()`.
The loops read every cell `(i, j)` with `i < rows`, `j < cols`, so a matrix
lacking one of them is a fault, and so is an index outside `emptyCells`. -/
def GameModel.placeRandomObstacle (m : GameModel) (rnd : Draw) : Option GameModel :=
  if (allPositions m.rows m.cols).all fun p => (m.grid.cell p.1 p.2).isSome then
    let emptyCells := m.emptyCells
    if emptyCells.length > 0 then
      match emptyCells[randomIndex rnd emptyCells.length]? with
      | none => none
      | some (row, col) => some { m with grid := m.grid.setCell row col Cell.obstacle }
    else some m
  else none

/-- The `switch (direction)` of `moveHunter`: the new row and column, `none` for
the `default` branch. -/
def moveTarget (direction : String) (row col : Nat) : Option (Int × Int) :=
  if direction = "w" then some ((row : Int) - 1, (col : Int))
  else if direction = "s" then some ((row : Int) + 1, (col : Int))
  else if direction = "a" then some ((row : Int), (col : Int) - 1)
  else if direction = "d" then some ((row : Int), (col : Int) + 1)
  else none

/-- The end of `moveHunter`: the hunter object is written to the target cell,
`hunterPosition` and `rounds` are updated and `true` is returned. -/
def GameModel.arrive (m : GameModel) (newRow newCol : Nat) (hunterObj : Cell) :
    Bool × GameModel :=
  (true, { m with
    grid := m.grid.setCell newRow newCol hunterObj
    hunterPosition := some (newRow, newCol)
    rounds := numAdd m.rounds 1 })

/-- The method `moveHunter(direction)`, with `rnd` the value `Math.random()`
returns if `placeRandomObstacle` asks for it. -/
def GameModel.moveHunter (m : GameModel) (direction : String) (rnd : Draw) :
    Option (Bool × GameModel) :=
  match m.hunterPosition with
  | none => some (false, m)
  | some (row, col) =>
    match moveTarget direction row col with
    | none => some (false, m)
    | some (newRow, newCol) =>
      if newRow < 0 ∨ newRow ≥ (m.rows : Int) ∨ newCol < 0 ∨ newCol ≥ (m.cols : Int) then
        some (false, m)
      else
        match m.grid.cell newRow.toNat newCol.toNat with
        | none => none
        | some blocker =>
          if blocker = Cell.obstacle then some (false, m)
          else
            match m.grid.cell row col with
            | none => none
            | some hunterObj =>
              let m1 := { m with grid := m.grid.setCell row col Cell.empty }
              match m1.grid.cell newRow.toNat newCol.toNat with
              | none => none
              | some (Cell.treasure v) =>
                let m2 := { m1 with
                  score := numAdd m1.score v
                  treasureCounts := m1.treasureCounts.dec v }
                match m2.placeRandomObstacle rnd with
                | none => none
                | some m3 => some (m3.arrive newRow.toNat newCol.toNat hunterObj)
              | some _ => some (m1.arrive newRow.toNat newCol.toNat hunterObj)

/-- The loop of `canHunterMove` over the remaining direction offsets. -/
def GameModel.canMoveFrom (m : GameModel) (row col : Nat) :
    List (Int × Int) → Option Bool
  | [] => some false
  | (r, c) :: rest =>
    let newRow : Int := (row : Int) + r
    let newCol : Int := (col : Int) + c
    if newRow ≥ 0 ∧ newRow < (m.rows : Int) ∧ newCol ≥ 0 ∧ newCol < (m.cols : Int) then
      match m.grid.cell newRow.toNat newCol.toNat with
      | none => none
      | some x => if x ≠ Cell.obstacle then some true else m.canMoveFrom row col rest
    else m.canMoveFrom row col rest

/-- The method `canHunterMove`. -/
def GameModel.canHunterMove (m : GameModel) : Option Bool :=
  match m.hunterPosition with
  | none => some false
  | some (row, col) => m.canMoveFrom row col [(-1, 0), (1, 0), (0, -1), (0, 1)]

/-- The method `GameController.endPlayStage`. -/
def endPlayStage (m : GameModel) : GameModel :=
  { m with gameStage := Stage.end_ }

/-- The method `GameController.endSetupStage`. -/
def endSetupStage (m : GameModel) : GameModel :=
  if m.hunterPosition = none then m
  else
    let m1 := { m with gameStage := Stage.play }
    if m1.getTotalTreasures = 0 then endPlayStage m1 else m1

/-- The method `GameController.handleKeyDown(key)`. -/
def handleKeyDown (m : GameModel) (key : String) (rnd : Draw) : Option GameModel :=
  if key ∈ ["w", "a", "s", "d"] then
    match m.moveHunter key rnd with
    | none => none
    | some (false, m1) => some m1
    | some (true, m1) =>
      if m1.getTotalTreasures = 0 then some (endPlayStage m1)
      else
        match m1.canHunterMove with
        | none => none
        | some false => some (endPlayStage m1)
        | some true => some m1
  else some m

/-! ## Listeners of the controller -/

/-- The method `GameController.handleCellClick` for the clicked cell
`(row, col)`.  `trimmedInput` is the value of `input.trim().toLowerCase()`, or
`none` when `prompt` returned `null` or the empty string. -/
def handleCellClick (m : GameModel) (row col : Nat) (trimmedInput : Option String) :
    Option GameModel :=
  match trimmedInput with
  | none => some m
  | some s =>
    let obj : Option Cell :=
      if s = "5" then some (Cell.treasure 5)
      else if s = "6" then some (Cell.treasure 6)
      else if s = "7" then some (Cell.treasure 7)
      else if s = "8" then some (Cell.treasure 8)
      else if s = "o" then some Cell.obstacle
      else if s = "h" then some Cell.hunter
      else none
    match obj with
    | none => some m
    | some o =>
      match m.placeObject row col o with
      | none => none
      | some (_, m1) => some m1

/-- The click listener installed by `setupEventListeners`.  `target` is the
grid cell found by `closest('.cell')`, `none` when the click hit no cell. -/
def clickListener (m : GameModel) (target : Option (Nat × Nat))
    (trimmedInput : Option String) : Option GameModel :=
  match target with
  | none => some m
  | some (row, col) =>
    if m.gameStage = Stage.setup then handleCellClick m row col trimmedInput
    else some m

/-- The keydown listener installed by `setupEventListeners`; `key` is the value
of `e.key.toLowerCase()`. -/
def keydownListener (m : GameModel) (key : String) (rnd : Draw) : Option GameModel :=
  if m.gameStage = Stage.play then handleKeyDown m key rnd else some m

/-! ## Shape of the grid and counting of cells -/

/-- The grid is the `rows × cols` matrix built by the constructor. -/
def GameModel.WellFormed (m : GameModel) : Prop :=
  m.grid.length = m.rows ∧ ∀ cells ∈ m.grid, cells.length = m.cols

instance (m : GameModel) : Decidable m.WellFormed := by
  unfold GameModel.WellFormed
  infer_instance

/-- Number of cells of the grid that satisfy `p`. -/
def Grid.countP (g : Grid) (p : Cell → Bool) : Nat :=
  (g.map fun cells => cells.countP p).sum

/-- Number of cells of the grid equal to `x`. -/
def Grid.countCells (g : Grid) (x : Cell) : Nat :=
  g.countP fun y => y == x

/-- The test `cell.type === 'treasure'`. -/
def Cell.isTreasure : Cell → Bool
  | Cell.treasure _ => true
  | _ => false

/-- Number of treasure cells of the grid, of any value. -/
def Grid.countTreasures (g : Grid) : Nat :=
  g.countP Cell.isTreasure

/-- The objects the controller places: a treasure has value 5, 6, 7 or 8. -/
def Cell.Placeable : Cell → Prop
  | Cell.treasure v => v = 5 ∨ v = 6 ∨ v = 7 ∨ v = 8
  | _ => True

/-- The states reached from a freshly constructed model by calls of `placeObject`
(with a placeable object) and `moveHunter` (with a draw in `[0, 1)`) that
return.  On these states the only call that faults is a `placeObject` outside
the grid, which throws at its first read and so leaves the state as it was
(`placeObject_returns`, `moveHunter_returns`). -/
inductive Reachable : GameModel → Prop where
  | fresh (rows cols : Nat) : Reachable (GameModel.new rows cols)
  | place {m m' : GameModel} (row col : Nat) (obj : Cell) (b : Bool) :
      Reachable m → obj.Placeable → m.placeObject row col obj = some (b, m') → Reachable m'
  | move {m m' : GameModel} (direction : String) (rnd : Draw) (b : Bool) :
      Reachable m → rnd.Valid → m.moveHunter direction rnd = some (b, m') → Reachable m'

/-- The invariant of the reachable states: the grid is `rows × cols`, the cell
at `hunterPosition` is the hunter, each entry of `treasureCounts` is the number
of treasure cells of that value (none has another value), and the total is the
number of treasure cells. -/
def GameModel.Inv (m : GameModel) : Prop :=
  m.WellFormed ∧
  (∀ row col, m.hunterPosition = some (row, col) → m.grid.cell row col = some Cell.hunter) ∧
  (∀ v, (m.grid.countCells (Cell.treasure v) : Int) = m.treasureCounts.get v) ∧
  (m.grid.countTreasures : Int) = m.getTotalTreasures

/-- Order of the stages: setup, then play, then end. -/
def Stage.rank : Stage → Nat
  | Stage.setup => 0
  | Stage.play => 1
  | Stage.end_ => 2

/-- The model after a successful move onto a treasure of value `v`, when the
obstacle was spawned on the cell `p`. -/
def GameModel.afterPickup (m : GameModel) (row col : Nat) (p : Nat × Nat) (tr tc : Nat)
    (hunterObj : Cell) (v : Nat) : GameModel :=
  { m with
    grid := ((m.grid.setCell row col Cell.empty).setCell p.1 p.2 Cell.obstacle).setCell
      tr tc hunterObj
    hunterPosition := some (tr, tc)
    rounds := numAdd m.rounds 1
    score := numAdd m.score v
    treasureCounts := m.treasureCounts.dec v }

/-- The cell `p` holds an obstacle in the grid `after` and did not in `before`. -/
def turnedObstacle (before after : Grid) (p : Nat × Nat) : Prop :=
  after.cell p.1 p.2 = some Cell.obstacle ∧ before.cell p.1 p.2 ≠ some Cell.obstacle

instance (before after : Grid) (p : Nat × Nat) : Decidable (turnedObstacle before after p) := by
  unfold turnedObstacle
  infer_instance

/-! ## The performance index

`score / rounds` is a division of Numbers: the result is the binary64 value
nearest to the exact quotient, ties to the even significand.  For integer
operands below `2 ^ 53` the quotient is zero or lies in `[2 ^ -53, 2 ^ 53)`, so it
is a normal binary64 `sig / 2 ^ shift` with `2 ^ 52 ≤ sig ≤ 2 ^ 53`.
`x.toFixed(2)` takes the integer `n` for which `n / 100 - x` is closest to zero, the
larger one if there are two, and prints `n / 100` with two decimals. -/

/-- The shift `s` with `2 ^ 52 ≤ a * 2 ^ s / b < 2 ^ 53`, for `0 < a, b < 2 ^ 53`
(it is at most 105). -/
def binary64Shift (a b : Nat) : Nat :=
  shiftFrom a b 105 0

/-- The Number `a / b` for integers `a` and `b > 0` below `2 ^ 53`, as the pair
`(sig, shift)` of value `sig / 2 ^ shift`. -/
def float64Div (a b : Nat) : Nat × Nat :=
  if a = 0 then (0, 0)
  else (roundHalfEven (a * 2 ^ binary64Shift a b) b, binary64Shift a b)

/-- The digits of `x.toFixed(2)` for `x = sig / 2 ^ shift`: the integer `n` nearest
to `100 * x`, the larger one on a tie; the string is `n / 100` with two
decimals. -/
def toFixed2 (sig shift : Nat) : Nat :=
  (200 * sig + 2 ^ shift) / 2 ^ (shift + 1)

/-- What `calculatePerformanceIndex` returns: the Number `0`, or the string of
`toFixed(2)`, given by its value in hundredths (`fixed 1234` is "12.34"). -/
inductive PerformanceIndex where
  | number (n : Nat)
  | fixed (hundredths : Nat)
  deriving DecidableEq, Repr

/-- The value denoted by the result, in hundredths. -/
def PerformanceIndex.hundredths : PerformanceIndex → Nat
  | PerformanceIndex.number n => 100 * n
  | PerformanceIndex.fixed h => h

/-- The method `calculatePerformanceIndex`. -/
def GameModel.calculatePerformanceIndex (m : GameModel) : PerformanceIndex :=
  if m.rounds = 0 then PerformanceIndex.number 0
  else
    let x := float64Div m.score m.rounds
    PerformanceIndex.fixed (toFixed2 x.1 x.2)

/-! ## Value of a game -/

/-- The quantity `score + 5 * treasureCounts[5] + 6 * treasureCounts[6] +
7 * treasureCounts[7] + 8 * treasureCounts[8]`. -/
def GameModel.totalValue (m : GameModel) : Int :=
  (m.score : Int) + 5 * m.treasureCounts.c5 + 6 * m.treasureCounts.c6 +
    7 * m.treasureCounts.c7 + 8 * m.treasureCounts.c8

instance (x : Cell) : Decidable x.Placeable := by
  cases x <;> unfold Cell.Placeable <;> infer_instance

/-- Every treasure cell of the grid carries one of the values 5, 6, 7, 8 of the
data model. -/
def GameModel.TypedGrid (m : GameModel) : Prop :=
  ∀ cells ∈ m.grid, ∀ x ∈ cells, x.Placeable

instance (m : GameModel) : Decidable m.TypedGrid := by
  unfold GameModel.TypedGrid
  infer_instance

/-- The states reached from `m0` by calls of `moveHunter` that return. -/
inductive MovesFrom (m0 : GameModel) : GameModel → Prop where
  | start : MovesFrom m0 m0
  | move {m m' : GameModel} (direction : String) (rnd : Draw) (b : Bool) :
      MovesFrom m0 m → m.moveHunter direction rnd = some (b, m') → MovesFrom m0 m'

/-- The cell `(r, c)` is inside the grid and is not an obstacle. -/
def GameModel.passable (m : GameModel) (r c : Int) : Prop :=
  (0 ≤ r ∧ r < (m.rows : Int) ∧ 0 ≤ c ∧ c < (m.cols : Int)) ∧
    m.grid.cell r.toNat c.toNat ≠ some Cell.obstacle

instance (m : GameModel) (r c : Int) : Decidable (m.passable r c) := by
  unfold GameModel.passable
  infer_instance

/-! ## Concrete games -/

/-- A fresh 5×5 game with the hunter placed at (0,0). -/
def hunterPlaced : GameModel :=
  { GameModel.new 5 5 with
    grid := (createEmptyGrid 5 5).setCell 0 0 Cell.hunter
    hunterPosition := some (0, 0) }

/-- Scenario A of the specification: hunter at (0,0), treasure 5 at (0,1), in
the play stage. -/
def scenarioA : GameModel :=
  { GameModel.new 5 5 with
    grid := ((createEmptyGrid 5 5).setCell 0 0 Cell.hunter).setCell 0 1 (Cell.treasure 5)
    gameStage := Stage.play
    hunterPosition := some (0, 0)
    treasureCounts := { c5 := 1, c6 := 0, c7 := 0, c8 := 0 } }

/-- Scenario A while still in the setup stage. -/
def setupA : GameModel :=
  { scenarioA with gameStage := Stage.setup }

/-- A 2×2 game in the play stage: hunter at (0,0), treasure 5 at (0,1),
treasure 6 at (1,0), obstacle at (1,1). -/
def cornered : GameModel :=
  { rows := 2
    cols := 2
    grid := [[Cell.hunter, Cell.treasure 5], [Cell.treasure 6, Cell.obstacle]]
    gameStage := Stage.play
    hunterPosition := some (0, 0)
    rounds := 0
    score := 0
    treasureCounts := { c5 := 1, c6 := 1, c7 := 0, c8 := 0 } }

/-- The game `setupA` after the move right with the draw 11/32: the treasure is
collected and the obstacle has landed on (1,4). -/
def afterMove : GameModel :=
  setupA.afterPickup 0 0 (1, 4) 0 1 Cell.hunter 5

/-- The game `hunterPlaced` after the hunter has stepped right onto the empty
cell (0,1): one round played, score 0. -/
def wandered : GameModel :=
  { hunterPlaced with
    grid := (hunterPlaced.grid.setCell 0 0 Cell.empty).setCell 0 1 Cell.hunter
    hunterPosition := some (0, 1)
    rounds := 1 }

/-- A game with three treasures of value 5 collected in 200 rounds. -/
def slowGame15 : GameModel :=
  { wandered with score := 15, rounds := 200 }

/-- A game with treasures of value 5 and 6 collected in 200 rounds. -/
def slowGame11 : GameModel :=
  { wandered with score := 11, rounds := 200 }

/-- Scenario A with the score and the round counter at `2 ^ 53`. -/
def saturated : GameModel :=
  { scenarioA with score := 2 ^ 53, rounds := 2 ^ 53 }

/-- The game `hunterPlaced` with the round counter at `2 ^ 53`. -/
def saturatedRounds : GameModel :=
  { hunterPlaced with rounds := 2 ^ 53 }

/-- A 5×5 game in the play stage with the hunter at (0,0) and, at (0,1), a
treasure object of value 9, which `placeObject` accepts. -/
def nineGame : GameModel :=
  { GameModel.new 5 5 with
    grid := ((createEmptyGrid 5 5).setCell 0 0 Cell.hunter).setCell 0 1 (Cell.treasure 9)
    gameStage := Stage.play
    hunterPosition := some (0, 0) }

/-- A 5×5 grid without an empty cell: obstacles everywhere but the hunter on
(0,0). -/
def fullGrid : GameModel :=
  { GameModel.new 5 5 with
    grid := Grid.setCell (List.replicate 5 (List.replicate 5 Cell.obstacle)) 0 0 Cell.hunter
    hunterPosition := some (0, 0) }

/-! ## Numbers -/

theorem roundHalfEven_bounds (A b : Nat) (hb : 0 < b) :
    2 * (roundHalfEven A b * b) ≤ 2 * A + b ∧ 2 * A ≤ 2 * (roundHalfEven A b * b) + b := by
  have hdm := Nat.div_add_mod' A b
  have hr := Nat.mod_lt A hb
  unfold roundHalfEven
  simp only []
  split_ifs <;> (try simp only [Nat.add_mul, Nat.one_mul]) <;> omega

theorem shiftFrom_spec (a b : Nat) (fuel s : Nat)
    (hlow : s = 0 ∨ a * 2 ^ s < b * 2 ^ 53)
    (hhigh : b * 2 ^ 52 ≤ a * 2 ^ (s + fuel)) :
    b * 2 ^ 52 ≤ a * 2 ^ shiftFrom a b fuel s ∧
      (shiftFrom a b fuel s = 0 ∨ a * 2 ^ shiftFrom a b fuel s < b * 2 ^ 53) := by
  induction fuel generalizing s with
  | zero => exact ⟨by simpa [shiftFrom] using hhigh, by simpa [shiftFrom] using hlow⟩
  | succ fuel ih =>
    unfold shiftFrom
    by_cases hc : b * 2 ^ 52 ≤ a * 2 ^ s
    · rw [if_pos hc]
      exact ⟨hc, hlow⟩
    · rw [if_neg hc]
      apply ih
      · right
        have h1 : a * 2 ^ (s + 1) = a * 2 ^ s * 2 := by rw [Nat.pow_succ, Nat.mul_assoc]
        have h2 : b * 2 ^ 53 = b * 2 ^ 52 * 2 := by rw [Nat.pow_succ, Nat.mul_assoc]
        omega
      · rw [show s + 1 + fuel = s + (fuel + 1) by omega]
        exact hhigh

theorem shiftFrom_upper (a b : Nat) (fuel s : Nat)
    (hlow : s = 0 ∨ a * 2 ^ s < b * 2 ^ 53) :
    shiftFrom a b fuel s = 0 ∨ a * 2 ^ shiftFrom a b fuel s < b * 2 ^ 53 := by
  induction fuel generalizing s with
  | zero => simpa [shiftFrom] using hlow
  | succ fuel ih =>
    unfold shiftFrom
    by_cases hc : b * 2 ^ 52 ≤ a * 2 ^ s
    · rw [if_pos hc]
      exact hlow
    · rw [if_neg hc]
      apply ih
      right
      have h1 : a * 2 ^ (s + 1) = a * 2 ^ s * 2 := by rw [Nat.pow_succ, Nat.mul_assoc]
      have h2 : b * 2 ^ 53 = b * 2 ^ 52 * 2 := by rw [Nat.pow_succ, Nat.mul_assoc]
      omega

theorem shiftFrom_lower (a b : Nat) (fuel s : Nat) :
    b * 2 ^ 52 ≤ a * 2 ^ shiftFrom a b fuel s ∨ shiftFrom a b fuel s = s + fuel := by
  induction fuel generalizing s with
  | zero => exact Or.inr rfl
  | succ fuel ih =>
    unfold shiftFrom
    by_cases hc : b * 2 ^ 52 ≤ a * 2 ^ s
    · rw [if_pos hc]
      exact Or.inl hc
    · rw [if_neg hc]
      rcases ih (s + 1) with h | h
      · exact Or.inl h
      · exact Or.inr (by rw [h]; omega)

/-- An integer up to `2 ^ 53` is a binary64. -/
theorem float64OfNat_of_le (n : Nat) (h : n ≤ 2 ^ 53) : float64OfNat n = n := by
  rcases Nat.lt_or_ge n (2 ^ 53) with hlt | hge
  · have h0 : downShiftFrom n 971 0 = 0 := by
      rw [show (971 : Nat) = 970 + 1 from rfl]
      unfold downShiftFrom
      rw [if_pos (by simpa using hlt)]
    unfold float64OfNat
    rw [h0]
    simp [roundHalfEven, Nat.mod_one]
  · have he : n = 2 ^ 53 := Nat.le_antisymm h hge
    subst he
    decide

/-- The sum of two Numbers with integer values is exact up to `2 ^ 53`. -/
theorem numAdd_of_le (a b : Nat) (h : a + b ≤ 2 ^ 53) : numAdd a b = a + b :=
  float64OfNat_of_le (a + b) h

/-- The index `Math.floor(Math.random() * n)` is below `n`: the binary64 product
of a draw below 1 and `n` rounds to a value below `n`. -/
theorem randomIndex_lt (rnd : Draw) (h : rnd.Valid) (n : Nat) (hn : 0 < n) :
    randomIndex rnd n < n := by
  obtain ⟨h53, _, hlt⟩ := h
  unfold randomIndex float64Mul
  by_cases h0 : rnd.sig * n = 0
  · rw [if_pos h0]
    simpa using hn
  rw [if_neg h0]
  simp only []
  have hB : 0 < 2 ^ rnd.shift := by positivity
  obtain ⟨hR, _⟩ := roundHalfEven_bounds
    (rnd.sig * n * 2 ^ shiftFrom (rnd.sig * n) (2 ^ rnd.shift) 1074 0) (2 ^ rnd.shift) hB
  have hup := shiftFrom_upper (rnd.sig * n) (2 ^ rnd.shift) 1074 0 (Or.inl rfl)
  have hlow := shiftFrom_lower (rnd.sig * n) (2 ^ rnd.shift) 1074 0
  have hD : 2 ^ rnd.shift ≤ (2 ^ rnd.shift - rnd.sig) * 2 ^ 53 := by
    rcases Nat.lt_or_ge rnd.shift 54 with hs | hs
    · have h1 : 2 ^ rnd.shift ≤ 2 ^ 53 := Nat.pow_le_pow_right (by norm_num) (by omega)
      have h2 : 1 * 2 ^ 53 ≤ (2 ^ rnd.shift - rnd.sig) * 2 ^ 53 :=
        Nat.mul_le_mul_right _ (by omega)
      omega
    · have h1 : 2 ^ 54 ≤ 2 ^ rnd.shift := Nat.pow_le_pow_right (by norm_num) hs
      have h2 : (2 ^ rnd.shift - rnd.sig) * 2 ≤ (2 ^ rnd.shift - rnd.sig) * 2 ^ 53 :=
        Nat.mul_le_mul_left _ (by norm_num)
      omega
  generalize shiftFrom (rnd.sig * n) (2 ^ rnd.shift) 1074 0 = s at *
  generalize roundHalfEven _ _ = M at *
  generalize hBdef : 2 ^ rnd.shift = B at *
  generalize rnd.sig = g at *
  have hP : 0 < 2 ^ s := by positivity
  rw [Nat.div_lt_iff_lt_mul hP]
  by_contra hcon
  have hle : n * 2 ^ s ≤ M := by omega
  rcases hlow with hN | hs
  · -- normalised product
    obtain ⟨D, rfl⟩ : ∃ D, B = g + D := ⟨B - g, by omega⟩
    have hDpos : 0 < D := by omega
    have hD' : g + D ≤ D * 2 ^ 53 := by simpa using hD
    have h1 : n * 2 ^ s * (g + D) ≤ M * (g + D) := Nat.mul_le_mul_right _ hle
    have h2 : g * n * 2 ^ s = g * (n * 2 ^ s) := Nat.mul_assoc _ _ _
    rw [h2] at hR hN
    generalize n * 2 ^ s = Q at *
    have h3 : 2 * (Q * D) ≤ g + D := by nlinarith [h1, hR]
    have h4 : Q * D * 2 ≤ 2 ^ 52 * D * 2 := by
      have : 2 * (Q * D) ≤ D * 2 ^ 53 := Nat.le_trans h3 hD'
      omega
    have h5 : Q ≤ 2 ^ 52 := by
      have h6 : Q * D ≤ 2 ^ 52 * D := by omega
      exact Nat.le_of_mul_le_mul_right h6 hDpos
    have h7 : g * Q ≤ g * 2 ^ 52 := Nat.mul_le_mul_left g h5
    have h8 : (g + D) * 2 ^ 52 = g * 2 ^ 52 + D * 2 ^ 52 := Nat.add_mul _ _ _
    have h9 : 1 * 2 ^ 52 ≤ D * 2 ^ 52 := Nat.mul_le_mul_right _ hDpos
    omega
  · -- the finest spacing: the product is below 2 ^ -1022
    have hs' : 53 < s := by omega
    rcases hup with h | h
    · omega
    · have h1 : 1 * 2 ^ s ≤ n * 2 ^ s := Nat.mul_le_mul_right _ hn
      have h2 : M * B ≤ 2 ^ 53 * B := by
        by_contra h2
        have h3 : (2 ^ 53 + 1) * B ≤ M * B := by
          apply Nat.mul_le_mul_right
          by_contra h4
          exact h2 (Nat.mul_le_mul_right _ (by omega))
        have h5 : (2 ^ 53 + 1) * B = B * 2 ^ 53 + B := by ring
        omega
      have h6 : M ≤ 2 ^ 53 := Nat.le_of_mul_le_mul_right h2 hB
      have h7 : (2 : Nat) ^ 53 < 2 ^ s := Nat.pow_lt_pow_right (by norm_num) hs'
      omega

/-! ## Reads and writes of grid cells -/

theorem Grid.cell_isSome_iff (g : Grid) (r c : Nat) :
    (g.cell r c).isSome ↔ ∃ cells, g[r]? = some cells ∧ c < cells.length := by
  unfold Grid.cell
  cases hr : g[r]? with
  | none => simp
  | some cells =>
    simp only [Option.some.injEq, exists_eq_left']
    cases hc : cells[c]? with
    | none =>
      have := List.getElem?_eq_none_iff.mp hc
      simp; omega
    | some x =>
      have := (List.getElem?_eq_some_iff.mp hc).1
      simp; omega

theorem Grid.cell_setCell_self (g : Grid) (r c : Nat) (x : Cell)
    (h : (g.cell r c).isSome) : (g.setCell r c x).cell r c = some x := by
  obtain ⟨cells, hr, hc⟩ := (Grid.cell_isSome_iff g r c).mp h
  have hlt : r < g.length := (List.getElem?_eq_some_iff.mp hr).1
  simp [Grid.cell, Grid.setCell, hr, List.getElem?_set_self hlt, hc]

theorem Grid.cell_setCell_ne (g : Grid) (r c r' c' : Nat) (x : Cell)
    (h : (r', c') ≠ (r, c)) : (g.setCell r c x).cell r' c' = g.cell r' c' := by
  unfold Grid.setCell
  cases hr : g[r]? with
  | none => rfl
  | some cells =>
    have hlt : r < g.length := (List.getElem?_eq_some_iff.mp hr).1
    by_cases hrr : r' = r
    · subst hrr
      have hcc : c ≠ c' := fun e => h (by rw [e])
      simp [Grid.cell, hr, List.getElem?_set_self hlt, List.getElem?_set_ne hcc]
    · have hrr' : r ≠ r' := fun e => hrr e.symm
      simp [Grid.cell, List.getElem?_set_ne hrr']

theorem Grid.cell_setCell_isSome (g : Grid) (r c r' c' : Nat) (x : Cell) :
    ((g.setCell r c x).cell r' c').isSome = (g.cell r' c').isSome := by
  by_cases h : (r', c') = (r, c)
  · obtain ⟨h1, h2⟩ := Prod.mk.inj h
    subst h1; subst h2
    cases hs : (g.cell r' c').isSome with
    | true => rw [Grid.cell_setCell_self g r' c' x hs]; rfl
    | false =>
      have hn : g.cell r' c' = none := by
        cases hc : g.cell r' c' with
        | none => rfl
        | some y => rw [hc] at hs; simp at hs
      unfold Grid.setCell
      cases hr : g[r']? with
      | none => simp [hn]
      | some cells =>
        have hlt : r' < g.length := (List.getElem?_eq_some_iff.mp hr).1
        have hcn : cells[c']? = none := by
          simpa [Grid.cell, hr] using hn
        have hlen : cells.length ≤ c' := List.getElem?_eq_none_iff.mp hcn
        simp [Grid.cell, List.getElem?_set_self hlt]
        exact hlen
  · rw [Grid.cell_setCell_ne g r c r' c' x h]

/-! ## Well-formed grids -/

theorem GameModel.WellFormed.cell_isSome {m : GameModel} (h : m.WellFormed) (r c : Nat) :
    (m.grid.cell r c).isSome ↔ r < m.rows ∧ c < m.cols := by
  rw [Grid.cell_isSome_iff]
  constructor
  · rintro ⟨cells, hr, hc⟩
    obtain ⟨hlt, hget⟩ := List.getElem?_eq_some_iff.mp hr
    have hmem : cells ∈ m.grid := hget ▸ List.getElem_mem hlt
    exact ⟨h.1 ▸ hlt, h.2 cells hmem ▸ hc⟩
  · rintro ⟨hr, hc⟩
    have hlt : r < m.grid.length := h.1.symm ▸ hr
    refine ⟨m.grid[r], List.getElem?_eq_getElem hlt, ?_⟩
    rw [h.2 _ (List.getElem_mem hlt)]
    exact hc

theorem Grid.setCell_length (g : Grid) (r c : Nat) (x : Cell) :
    (g.setCell r c x).length = g.length := by
  unfold Grid.setCell
  split <;> simp

theorem Grid.setCell_row_length (g : Grid) (r c : Nat) (x : Cell) (n : Nat)
    (h : ∀ cells ∈ g, cells.length = n) : ∀ cells ∈ g.setCell r c x, cells.length = n := by
  unfold Grid.setCell
  cases hr : g[r]? with
  | none => exact h
  | some old =>
    intro cells hmem
    rcases List.mem_or_eq_of_mem_set hmem with hin | heq
    · exact h cells hin
    · have hlt : r < g.length := (List.getElem?_eq_some_iff.mp hr).1
      have hold : old ∈ g := List.mem_iff_getElem?.mpr ⟨r, hr⟩
      rw [heq, List.length_set]
      exact h old hold

/-- A model that differs from a well-formed one by one cell write (and any
fields other than the dimensions) is well-formed. -/
theorem GameModel.WellFormed.setCell {m m' : GameModel} (h : m.WellFormed) (r c : Nat)
    (x : Cell) (hrows : m'.rows = m.rows) (hcols : m'.cols = m.cols)
    (hgrid : m'.grid = m.grid.setCell r c x) : m'.WellFormed := by
  unfold GameModel.WellFormed
  rw [hgrid, hrows, hcols, Grid.setCell_length]
  exact ⟨h.1, Grid.setCell_row_length m.grid r c x m.cols h.2⟩

theorem wellFormed_new (rows cols : Nat) : (GameModel.new rows cols).WellFormed := by
  constructor
  · simp [GameModel.new, createEmptyGrid]
  · intro cells hmem
    simp only [GameModel.new, createEmptyGrid] at hmem
    rw [(List.mem_replicate.mp hmem).2]
    simp [GameModel.new]

/-! ## The random obstacle -/

theorem mem_allPositions (rows cols : Nat) (p : Nat × Nat) :
    p ∈ allPositions rows cols ↔ p.1 < rows ∧ p.2 < cols := by
  obtain ⟨i, j⟩ := p
  simp only [allPositions, List.mem_flatMap, List.mem_range, List.mem_map, Prod.mk.injEq]
  constructor
  · rintro ⟨a, ha, b, hb, rfl, rfl⟩
    exact ⟨ha, hb⟩
  · rintro ⟨hi, hj⟩
    exact ⟨i, hi, j, hj, rfl, rfl⟩

theorem mem_emptyCells (m : GameModel) (p : Nat × Nat) :
    p ∈ m.emptyCells ↔ (p.1 < m.rows ∧ p.2 < m.cols) ∧ m.grid.cell p.1 p.2 = some Cell.empty := by
  simp [GameModel.emptyCells, mem_allPositions]

theorem all_cells_readable {m : GameModel} (h : m.WellFormed) :
    ((allPositions m.rows m.cols).all fun p => (m.grid.cell p.1 p.2).isSome) = true := by
  rw [List.all_eq_true]
  intro p hp
  exact (h.cell_isSome p.1 p.2).mpr ((mem_allPositions _ _ p).mp hp)

/-- On a well-formed model and a draw in `[0, 1)`, `placeRandomObstacle` returns:
with no empty cell the model is unchanged, otherwise one member of `emptyCells`
is overwritten by an obstacle. -/
theorem placeRandomObstacle_eq {m : GameModel} (h : m.WellFormed) (rnd : Draw)
    (hrnd : rnd.Valid) :
    (m.emptyCells = [] ∧ m.placeRandomObstacle rnd = some m) ∨
    (∃ p ∈ m.emptyCells, m.placeRandomObstacle rnd =
        some { m with grid := m.grid.setCell p.1 p.2 Cell.obstacle }) := by
  unfold GameModel.placeRandomObstacle
  rw [if_pos (all_cells_readable h)]
  by_cases hlen : m.emptyCells.length > 0
  · right
    simp only [hlen, if_true]
    have hidx := randomIndex_lt rnd hrnd _ hlen
    obtain ⟨⟨row, col⟩, hp⟩ : ∃ p, m.emptyCells[randomIndex rnd m.emptyCells.length]? = some p :=
      ⟨_, List.getElem?_eq_getElem hidx⟩
    exact ⟨(row, col), List.mem_iff_getElem?.mpr ⟨_, hp⟩, by rw [hp]⟩
  · left
    have : m.emptyCells = [] := List.length_eq_zero.mp (by omega)
    simp [this]

/-! ## A move onto a treasure -/

theorem moveTarget_ne (direction : String) (row col : Nat) (newRow newCol : Int)
    (ht : moveTarget direction row col = some (newRow, newCol))
    (hr : 0 ≤ newRow) (hc : 0 ≤ newCol) : (newRow.toNat, newCol.toNat) ≠ (row, col) := by
  intro heq
  obtain ⟨h1, h2⟩ := Prod.mk.inj heq
  unfold moveTarget at ht
  repeat' split at ht
  all_goals first
    | (simp only [Option.some.injEq, Prod.mk.injEq] at ht; omega)
    | (simp at ht)

/-- A move onto a treasure, on a well-formed model with a draw in `[0, 1)`:
the call returns `true`, and the obstacle lands on a cell `p` of the grid that is
either the vacated source cell or a cell that was empty before the move. -/
theorem moveHunter_treasure_eq {m : GameModel} (hwf : m.WellFormed) (direction : String)
    (rnd : Draw) (hrnd : rnd.Valid) (row col : Nat) (newRow newCol : Int) (v : Nat)
    (hunterObj : Cell)
    (hpos : m.hunterPosition = some (row, col))
    (ht : moveTarget direction row col = some (newRow, newCol))
    (hin : ¬(newRow < 0 ∨ newRow ≥ (m.rows : Int) ∨ newCol < 0 ∨ newCol ≥ (m.cols : Int)))
    (htarget : m.grid.cell newRow.toNat newCol.toNat = some (Cell.treasure v))
    (hsrc : m.grid.cell row col = some hunterObj) :
    ∃ p : Nat × Nat,
      (p = (row, col) ∨ m.grid.cell p.1 p.2 = some Cell.empty) ∧
      p ≠ (newRow.toNat, newCol.toNat) ∧ (p.1 < m.rows ∧ p.2 < m.cols) ∧
      m.moveHunter direction rnd =
        some (true, m.afterPickup row col p newRow.toNat newCol.toNat hunterObj v) := by
  have hne : (newRow.toNat, newCol.toNat) ≠ (row, col) :=
    moveTarget_ne direction row col newRow newCol ht (by omega) (by omega)
  have htarget1 : (m.grid.setCell row col Cell.empty).cell newRow.toNat newCol.toNat =
      some (Cell.treasure v) := by
    rw [Grid.cell_setCell_ne _ _ _ _ _ _ hne, htarget]
  have hsrc1 : (m.grid.setCell row col Cell.empty).cell row col = some Cell.empty :=
    Grid.cell_setCell_self _ _ _ _ (by rw [hsrc]; rfl)
  have hsrcIn : row < m.rows ∧ col < m.cols :=
    (hwf.cell_isSome row col).mp (by rw [hsrc]; rfl)
  let m2 : GameModel :=
    { m with
      grid := m.grid.setCell row col Cell.empty
      score := numAdd m.score v
      treasureCounts := m.treasureCounts.dec v }
  have hwf2 : m2.WellFormed := hwf.setCell row col Cell.empty rfl rfl rfl
  have hmem : (row, col) ∈ m2.emptyCells := (mem_emptyCells m2 (row, col)).mpr ⟨hsrcIn, hsrc1⟩
  have hstep : m.moveHunter direction rnd =
      match m2.placeRandomObstacle rnd with
      | none => none
      | some m3 => some (m3.arrive newRow.toNat newCol.toNat hunterObj) := by
    simp only [GameModel.moveHunter, hpos, ht, if_neg hin, htarget, hsrc, htarget1]
    simp [m2, hpos]
  rcases placeRandomObstacle_eq hwf2 rnd hrnd with ⟨hnil, _⟩ | ⟨p, hp, hplace⟩
  · rw [hnil] at hmem
    exact absurd hmem (List.not_mem_nil _)
  · obtain ⟨hpIn, hpEmpty⟩ := (mem_emptyCells m2 p).mp hp
    have hpt : p ≠ (newRow.toNat, newCol.toNat) := by
      intro heq
      rw [heq] at hpEmpty
      rw [show m2.grid = m.grid.setCell row col Cell.empty from rfl, htarget1] at hpEmpty
      exact absurd hpEmpty (by simp)
    refine ⟨p, ?_, hpt, hpIn, ?_⟩
    · by_cases hps : p = (row, col)
      · exact Or.inl hps
      · right
        have : (p.1, p.2) ≠ (row, col) := hps
        rw [← Grid.cell_setCell_ne m.grid row col p.1 p.2 Cell.empty this]
        exact hpEmpty
    · rw [hstep, hplace]
      rfl

theorem cell_afterPickup_target {m : GameModel} (row col : Nat) (p : Nat × Nat) (tr tc : Nat)
    (hunterObj : Cell) (v : Nat) (ht : (m.grid.cell tr tc).isSome) :
    (m.afterPickup row col p tr tc hunterObj v).grid.cell tr tc = some hunterObj := by
  apply Grid.cell_setCell_self
  rw [Grid.cell_setCell_isSome, Grid.cell_setCell_isSome]
  exact ht

theorem cell_afterPickup_spawn {m : GameModel} (row col : Nat) (p : Nat × Nat) (tr tc : Nat)
    (hunterObj : Cell) (v : Nat) (hp : (m.grid.cell p.1 p.2).isSome) (hpt : p ≠ (tr, tc)) :
    (m.afterPickup row col p tr tc hunterObj v).grid.cell p.1 p.2 = some Cell.obstacle := by
  have h1 : (p.1, p.2) ≠ (tr, tc) := hpt
  show Grid.cell (Grid.setCell _ tr tc hunterObj) p.1 p.2 = _
  rw [Grid.cell_setCell_ne _ _ _ _ _ _ h1]
  apply Grid.cell_setCell_self
  rw [Grid.cell_setCell_isSome]
  exact hp

theorem cell_afterPickup_source {m : GameModel} (row col : Nat) (p : Nat × Nat) (tr tc : Nat)
    (hunterObj : Cell) (v : Nat) (hs : (m.grid.cell row col).isSome) (hst : (row, col) ≠ (tr, tc))
    (hsp : (row, col) ≠ p) :
    (m.afterPickup row col p tr tc hunterObj v).grid.cell row col = some Cell.empty := by
  have h1 : (row, col) ≠ (p.1, p.2) := hsp
  show Grid.cell (Grid.setCell _ tr tc hunterObj) row col = _
  rw [Grid.cell_setCell_ne _ _ _ _ _ _ hst, Grid.cell_setCell_ne _ _ _ _ _ _ h1]
  exact Grid.cell_setCell_self _ _ _ _ hs

theorem cell_afterPickup_other {m : GameModel} (row col : Nat) (p : Nat × Nat) (tr tc : Nat)
    (hunterObj : Cell) (v : Nat) (q : Nat × Nat) (hqt : q ≠ (tr, tc)) (hqp : q ≠ p)
    (hqs : q ≠ (row, col)) :
    (m.afterPickup row col p tr tc hunterObj v).grid.cell q.1 q.2 = m.grid.cell q.1 q.2 := by
  have h1 : (q.1, q.2) ≠ (tr, tc) := hqt
  have h2 : (q.1, q.2) ≠ (p.1, p.2) := hqp
  have h3 : (q.1, q.2) ≠ (row, col) := hqs
  show Grid.cell (Grid.setCell _ tr tc hunterObj) q.1 q.2 = _
  rw [Grid.cell_setCell_ne _ _ _ _ _ _ h1, Grid.cell_setCell_ne _ _ _ _ _ _ h2,
    Grid.cell_setCell_ne _ _ _ _ _ _ h3]

theorem TreasureCounts.get_dec_self (t : TreasureCounts) (v : Nat)
    (hv : v = 5 ∨ v = 6 ∨ v = 7 ∨ v = 8) : (t.dec v).get v = t.get v - 1 := by
  rcases hv with h | h | h | h <;> subst h <;> simp [TreasureCounts.dec, TreasureCounts.get]

theorem TreasureCounts.get_dec_ne (t : TreasureCounts) (v w : Nat) (h : w ≠ v) :
    (t.dec v).get w = t.get w := by
  unfold TreasureCounts.dec
  split_ifs <;> simp only [TreasureCounts.get] <;> split_ifs <;> first | rfl | omega

/-- C5, as the code behaves: on Scenario A with score and rounds at `2 ^ 53`, the
move right onto the treasure of value 5 succeeds, the score grows by 4 and the
round counter stays as it was: `+=` and `++` round to binary64. -/
theorem moveHunter_collects_rounded :
    saturated.hunterPosition = some (0, 0) ∧
    saturated.grid.cell 0 0 = some Cell.hunter ∧
    saturated.grid.cell 0 1 = some (Cell.treasure 5) ∧
    ∃ m', saturated.moveHunter "d" ⟨0, 1⟩ = some (true, m') ∧
      m'.score = saturated.score + 4 ∧ m'.score ≠ saturated.score + 5 ∧
      m'.rounds = saturated.rounds ∧ m'.rounds ≠ saturated.rounds + 1 := by
  refine ⟨by decide, by decide, by decide,
    saturated.afterPickup 0 0 (0, 0) 0 1 Cell.hunter 5, ?_⟩
  decide

/-- C5, amended: with the hunter at `(row, col)`, a target in bounds holding a
treasure of value `v` in 5..8, `score + v` at most `2 ^ 53` and `rounds` below
`2 ^ 53`, `moveHunter` returns `true`; afterwards the score has grown by `v`,
`treasureCounts[v]` has dropped by one and the other counts are the same,
`rounds` has grown by one, `hunterPosition` is the target and the target cell is
the hunter. -/
theorem moveHunter_collects_treasure {m : GameModel} (hwf : m.WellFormed)
    (direction : String) (rnd : Draw) (hrnd : rnd.Valid) (row col : Nat)
    (newRow newCol : Int) (v : Nat)
    (hpos : m.hunterPosition = some (row, col))
    (hhunter : m.grid.cell row col = some Cell.hunter)
    (ht : moveTarget direction row col = some (newRow, newCol))
    (hin : 0 ≤ newRow ∧ newRow < (m.rows : Int) ∧ 0 ≤ newCol ∧ newCol < (m.cols : Int))
    (htarget : m.grid.cell newRow.toNat newCol.toNat = some (Cell.treasure v))
    (hv : v = 5 ∨ v = 6 ∨ v = 7 ∨ v = 8)
    (hscore : m.score + v ≤ 2 ^ 53) (hrounds : m.rounds < 2 ^ 53) :
    ∃ m', m.moveHunter direction rnd = some (true, m') ∧
      m'.score = m.score + v ∧
      m'.treasureCounts.get v = m.treasureCounts.get v - 1 ∧
      (∀ w, w ≠ v → m'.treasureCounts.get w = m.treasureCounts.get w) ∧
      m'.rounds = m.rounds + 1 ∧
      m'.hunterPosition = some (newRow.toNat, newCol.toNat) ∧
      m'.grid.cell newRow.toNat newCol.toNat = some Cell.hunter := by
  obtain ⟨p, _, _, _, hmove⟩ := moveHunter_treasure_eq hwf direction rnd hrnd row col newRow
    newCol v Cell.hunter hpos ht (by omega) htarget hhunter
  refine ⟨_, hmove, numAdd_of_le _ _ hscore, ?_, ?_, numAdd_of_le _ _ (by omega), rfl, ?_⟩
  · exact TreasureCounts.get_dec_self _ v hv
  · intro w hw
    exact TreasureCounts.get_dec_ne _ v w hw
  · exact cell_afterPickup_target row col p _ _ Cell.hunter v (by rw [htarget]; rfl)

/-- C5 amended, on Scenario A: 5×5 grid, hunter at (0,0), treasure 5 at (0,1),
move right: score 5, rounds 1, position (0,1). -/
theorem moveHunter_collects_treasure_witness :
    scenarioA.WellFormed ∧ scenarioA.hunterPosition = some (0, 0) ∧
    scenarioA.grid.cell 0 0 = some Cell.hunter ∧ moveTarget "d" 0 0 = some (0, 1) ∧
    scenarioA.grid.cell 0 1 = some (Cell.treasure 5) ∧
    scenarioA.score + 5 ≤ 2 ^ 53 ∧ scenarioA.rounds < 2 ^ 53 ∧
    ∃ m', scenarioA.moveHunter "d" ⟨1, 3⟩ = some (true, m') ∧
      m'.score = 0 + 5 ∧
      m'.treasureCounts.get 5 = 1 - 1 ∧
      (∀ w, w ≠ 5 → m'.treasureCounts.get w = scenarioA.treasureCounts.get w) ∧
      m'.rounds = 0 + 1 ∧
      m'.hunterPosition = some (0, 1) ∧
      m'.grid.cell 0 1 = some Cell.hunter :=
  ⟨by decide, by decide, by decide, by decide, by decide, by decide, by decide,
    moveHunter_collects_treasure (m := scenarioA) (by decide) "d" ⟨1, 3⟩ (by decide) 0 0 0 1 5
      (by decide) (by decide) (by decide) (by decide) (by decide) (by decide) (by decide)
      (by decide)⟩

/-! ## The obstacle spawned by a pickup -/

/-- C6, as the code behaves: on Scenario A with the draw 0, the move right
succeeds and the one cell that turns into an obstacle is (0,0), which held the
hunter before the move and was not Empty. -/
theorem spawned_obstacle_on_vacated_cell :
    ∃ m', scenarioA.moveHunter "d" ⟨0, 1⟩ = some (true, m') ∧
      turnedObstacle scenarioA.grid m'.grid (0, 0) ∧
      scenarioA.grid.cell 0 0 = some Cell.hunter ∧
      scenarioA.grid.cell 0 0 ≠ some Cell.empty := by
  refine ⟨scenarioA.afterPickup 0 0 (0, 0) 0 1 Cell.hunter 5, ?_⟩
  decide

/-- C6, amended: a successful move of the hunter onto a treasure turns exactly
one cell `p` of the grid into an obstacle, and `p` is either a cell that was
Empty before the move or the cell the hunter has just left. -/
theorem moveHunter_treasure_spawns_one_obstacle {m : GameModel} (hwf : m.WellFormed)
    (direction : String) (rnd : Draw) (hrnd : rnd.Valid) (row col : Nat)
    (newRow newCol : Int) (v : Nat)
    (hpos : m.hunterPosition = some (row, col))
    (hhunter : m.grid.cell row col = some Cell.hunter)
    (ht : moveTarget direction row col = some (newRow, newCol))
    (hin : 0 ≤ newRow ∧ newRow < (m.rows : Int) ∧ 0 ≤ newCol ∧ newCol < (m.cols : Int))
    (htarget : m.grid.cell newRow.toNat newCol.toNat = some (Cell.treasure v)) :
    ∃ m' p, m.moveHunter direction rnd = some (true, m') ∧
      turnedObstacle m.grid m'.grid p ∧
      (∀ q, turnedObstacle m.grid m'.grid q → q = p) ∧
      (m.grid.cell p.1 p.2 = some Cell.empty ∨ p = (row, col)) := by
  obtain ⟨p, hp, hpt, hpIn, hmove⟩ := moveHunter_treasure_eq hwf direction rnd hrnd row col
    newRow newCol v Cell.hunter hpos ht (by omega) htarget hhunter
  have hne : (newRow.toNat, newCol.toNat) ≠ (row, col) :=
    moveTarget_ne direction row col newRow newCol ht hin.1 hin.2.2.1
  have hpSome : (m.grid.cell p.1 p.2).isSome := (hwf.cell_isSome p.1 p.2).mpr hpIn
  refine ⟨_, p, hmove, ⟨cell_afterPickup_spawn row col p _ _ Cell.hunter v hpSome hpt, ?_⟩,
    ?_, hp.symm⟩
  · rcases hp with hp | hp
    · rw [hp, hhunter]; simp
    · rw [hp]; simp
  · rintro q ⟨hafter, hbefore⟩
    by_contra hqp
    by_cases hqt : q = (newRow.toNat, newCol.toNat)
    · rw [hqt, cell_afterPickup_target row col p _ _ Cell.hunter v
        (by rw [htarget]; rfl)] at hafter
      simp at hafter
    · by_cases hqs : q = (row, col)
      · rw [hqs, cell_afterPickup_source row col p _ _ Cell.hunter v
          (by rw [hhunter]; rfl) (Ne.symm hne) (by rw [← hqs]; exact hqp)] at hafter
        simp at hafter
      · rw [cell_afterPickup_other row col p _ _ Cell.hunter v q hqt hqp hqs] at hafter
        exact hbefore hafter

/-- C6 amended, on Scenario A with the draw 1/8: the obstacle lands on one cell,
which was Empty before the move. -/
theorem moveHunter_treasure_spawns_one_obstacle_witness :
    scenarioA.WellFormed ∧ scenarioA.hunterPosition = some (0, 0) ∧
    scenarioA.grid.cell 0 0 = some Cell.hunter ∧ moveTarget "d" 0 0 = some (0, 1) ∧
    scenarioA.grid.cell 0 1 = some (Cell.treasure 5) ∧
    ∃ m' p, scenarioA.moveHunter "d" ⟨1, 3⟩ = some (true, m') ∧
      turnedObstacle scenarioA.grid m'.grid p ∧
      (∀ q, turnedObstacle scenarioA.grid m'.grid q → q = p) ∧
      (scenarioA.grid.cell p.1 p.2 = some Cell.empty ∨ p = (0, 0)) :=
  ⟨by decide, by decide, by decide, by decide, by decide,
    moveHunter_treasure_spawns_one_obstacle (m := scenarioA) (by decide) "d" ⟨1, 3⟩ (by decide)
      0 0 0 1 5 (by decide) (by decide) (by decide) (by decide) (by decide)⟩

/-! ## Counting cells -/

theorem sum_set_add (l : List Nat) (i a old : Nat) (h : l[i]? = some old) :
    (l.set i a).sum + old = l.sum + a := by
  induction l generalizing i with
  | nil => simp at h
  | cons x xs ih =>
    cases i with
    | zero =>
      simp only [List.getElem?_cons_zero, Option.some.injEq] at h
      simp only [List.set_cons_zero, List.sum_cons]
      omega
    | succ j =>
      simp only [List.getElem?_cons_succ] at h
      simp only [List.set_cons_succ, List.sum_cons]
      have := ih j h
      omega

theorem countP_set_add (p : Cell → Bool) (l : List Cell) (i : Nat) (x old : Cell)
    (h : l[i]? = some old) :
    (l.set i x).countP p + (if p old then 1 else 0) = l.countP p + (if p x then 1 else 0) := by
  induction l generalizing i with
  | nil => simp at h
  | cons y ys ih =>
    cases i with
    | zero =>
      simp only [List.getElem?_cons_zero, Option.some.injEq] at h
      subst h
      simp only [List.set_cons_zero, List.countP_cons]
      omega
    | succ j =>
      simp only [List.getElem?_cons_succ] at h
      simp only [List.set_cons_succ, List.countP_cons]
      have := ih j h
      omega

/-- Writing `x` over the cell `old` moves the count of `p` by the two tests. -/
theorem Grid.countP_setCell (g : Grid) (p : Cell → Bool) (r c : Nat) (x old : Cell)
    (h : g.cell r c = some old) :
    (g.setCell r c x).countP p + (if p old then 1 else 0) =
      g.countP p + (if p x then 1 else 0) := by
  unfold Grid.cell at h
  unfold Grid.setCell Grid.countP
  cases hr : g[r]? with
  | none => rw [hr] at h; simp at h
  | some cells =>
    rw [hr] at h
    simp only [List.map_set]
    have hrow : (g.map fun cells => cells.countP p)[r]? = some (cells.countP p) := by
      simp [hr]
    have h1 := sum_set_add _ r ((cells.set c x).countP p) _ hrow
    have h2 := countP_set_add p cells c x old h
    omega

theorem Grid.countP_pos (g : Grid) (p : Cell → Bool) (r c : Nat) (old : Cell)
    (h : g.cell r c = some old) (hp : p old = true) : 0 < g.countP p := by
  unfold Grid.cell at h
  unfold Grid.countP
  cases hr : g[r]? with
  | none => rw [hr] at h; simp at h
  | some cells =>
    rw [hr] at h
    have hmem : cells ∈ g := List.mem_iff_getElem?.mpr ⟨r, hr⟩
    have hx : old ∈ cells := List.mem_iff_getElem?.mpr ⟨c, h⟩
    have hpos : 0 < cells.countP p := List.countP_pos_iff.mpr ⟨old, hx, hp⟩
    have hle : cells.countP p ≤ (g.map fun cells => cells.countP p).sum :=
      List.single_le_sum (fun _ _ => Nat.zero_le _) _ (List.mem_map.mpr ⟨cells, hmem, rfl⟩)
    omega

/-! ## The treasure ledger -/

theorem TreasureCounts.get_inc (t : TreasureCounts) (v w : Nat)
    (hw : w = 5 ∨ w = 6 ∨ w = 7 ∨ w = 8) :
    (t.inc w).get v = t.get v + (if v = w then 1 else 0) := by
  rcases hw with h | h | h | h <;> subst h <;>
    simp only [TreasureCounts.inc, TreasureCounts.get] <;> split_ifs <;> simp_all

theorem TreasureCounts.get_dec (t : TreasureCounts) (v w : Nat)
    (hw : w = 5 ∨ w = 6 ∨ w = 7 ∨ w = 8) :
    (t.dec w).get v = t.get v - (if v = w then 1 else 0) := by
  rcases hw with h | h | h | h <;> subst h <;>
    simp only [TreasureCounts.dec, TreasureCounts.get] <;> split_ifs <;> simp_all

theorem TreasureCounts.get_of_not_key (t : TreasureCounts) (w : Nat)
    (hw : ¬(w = 5 ∨ w = 6 ∨ w = 7 ∨ w = 8)) : t.get w = 0 := by
  unfold TreasureCounts.get
  split_ifs <;> simp_all

theorem getTotalTreasures_inc (m : GameModel) (w : Nat) (hw : w = 5 ∨ w = 6 ∨ w = 7 ∨ w = 8)
    (m' : GameModel) (h : m'.treasureCounts = m.treasureCounts.inc w) :
    m'.getTotalTreasures = m.getTotalTreasures + 1 := by
  unfold GameModel.getTotalTreasures
  rw [h]
  rcases hw with h | h | h | h <;> subst h <;> simp [TreasureCounts.inc] <;> omega

theorem getTotalTreasures_dec (m : GameModel) (w : Nat) (hw : w = 5 ∨ w = 6 ∨ w = 7 ∨ w = 8)
    (m' : GameModel) (h : m'.treasureCounts = m.treasureCounts.dec w) :
    m'.getTotalTreasures = m.getTotalTreasures - 1 := by
  unfold GameModel.getTotalTreasures
  rw [h]
  rcases hw with h | h | h | h <;> subst h <;> simp [TreasureCounts.dec] <;> omega

/-! ## The invariant is kept by placements -/

/-- The invariant after an object was written to an empty cell, with the ledger
and the hunter position updated as `placeObject` does. -/
theorem inv_place (m m' : GameModel) (row col : Nat) (obj : Cell) (hinv : m.Inv)
    (hobj : obj.Placeable) (hc : m.grid.cell row col = some Cell.empty)
    (hrows : m'.rows = m.rows) (hcols : m'.cols = m.cols)
    (hgrid : m'.grid = m.grid.setCell row col obj)
    (hpos : m'.hunterPosition = m.hunterPosition ∨
      (obj = Cell.hunter ∧ m'.hunterPosition = some (row, col)))
    (hcounts : m'.treasureCounts =
      match obj with
      | Cell.treasure v => m.treasureCounts.inc v
      | _ => m.treasureCounts) : m'.Inv := by
  obtain ⟨hwf, hh, hcnt, htot⟩ := hinv
  refine ⟨hwf.setCell row col obj hrows hcols hgrid, ?_, ?_, ?_⟩
  · intro r0 c0 hp0
    rw [hgrid]
    rcases hpos with hsame | ⟨hobj', hnew⟩
    · rw [hsame] at hp0
      have hcell := hh r0 c0 hp0
      have hne : (r0, c0) ≠ (row, col) := by
        intro e
        obtain ⟨e1, e2⟩ := Prod.mk.inj e
        subst e1; subst e2
        rw [hc] at hcell
        simp at hcell
      rw [Grid.cell_setCell_ne _ _ _ _ _ _ hne]
      exact hcell
    · rw [hnew] at hp0
      obtain ⟨e1, e2⟩ := Prod.mk.inj (Option.some.inj hp0)
      subst e1; subst e2
      rw [hobj']
      exact Grid.cell_setCell_self _ _ _ _ (by rw [hc]; rfl)
  · intro v
    have hstep := Grid.countP_setCell m.grid (fun y => y == Cell.treasure v) row col obj
      Cell.empty hc
    have hold := hcnt v
    unfold Grid.countCells at hold ⊢
    rw [hgrid, hcounts]
    cases obj with
    | treasure w =>
      simp only [Cell.Placeable] at hobj
      rw [TreasureCounts.get_inc _ v w hobj]
      by_cases hvw : v = w
      · subst hvw
        simp at hstep
        rw [hstep]
        simp [hold]
      · have hwv : ¬ w = v := fun e => hvw e.symm
        simp [hwv] at hstep
        rw [hstep]
        simp [hold, hvw]
    | empty => simp at hstep; rw [hstep]; exact hold
    | obstacle => simp at hstep; rw [hstep]; exact hold
    | hunter => simp at hstep; rw [hstep]; exact hold
  · have hstep := Grid.countP_setCell m.grid Cell.isTreasure row col obj Cell.empty hc
    unfold Grid.countTreasures at htot ⊢
    rw [hgrid]
    cases obj with
    | treasure w =>
      simp only [Cell.Placeable] at hobj
      rw [getTotalTreasures_inc m w hobj m' hcounts]
      simp [Cell.isTreasure] at hstep
      rw [hstep]
      simp [htot]
    | empty =>
      have : m'.getTotalTreasures = m.getTotalTreasures := by
        unfold GameModel.getTotalTreasures; rw [hcounts]
      simp [Cell.isTreasure] at hstep
      rw [hstep, this]; exact htot
    | obstacle =>
      have : m'.getTotalTreasures = m.getTotalTreasures := by
        unfold GameModel.getTotalTreasures; rw [hcounts]
      simp [Cell.isTreasure] at hstep
      rw [hstep, this]; exact htot
    | hunter =>
      have : m'.getTotalTreasures = m.getTotalTreasures := by
        unfold GameModel.getTotalTreasures; rw [hcounts]
      simp [Cell.isTreasure] at hstep
      rw [hstep, this]; exact htot

theorem inv_new (rows cols : Nat) : (GameModel.new rows cols).Inv := by
  refine ⟨wellFormed_new rows cols, ?_, ?_, ?_⟩
  · intro row col h
    simp [GameModel.new] at h
  · intro v
    have h0 : (GameModel.new rows cols).grid.countCells (Cell.treasure v) = 0 := by
      simp only [GameModel.new, createEmptyGrid, Grid.countCells, Grid.countP]
      apply List.sum_eq_zero
      intro n hn
      simp only [List.map_replicate, List.mem_replicate] at hn
      rw [hn.2]
      simp [List.countP_replicate]
    rw [h0]
    simp only [GameModel.new, TreasureCounts.get]
    split_ifs <;> rfl
  · have h0 : (GameModel.new rows cols).grid.countTreasures = 0 := by
      simp only [GameModel.new, createEmptyGrid, Grid.countTreasures, Grid.countP]
      apply List.sum_eq_zero
      intro n hn
      simp only [List.map_replicate, List.mem_replicate] at hn
      rw [hn.2]
      simp [List.countP_replicate, Cell.isTreasure]
    rw [h0]
    rfl

theorem placeObject_inv {m m' : GameModel} (row col : Nat) (obj : Cell) (b : Bool)
    (hinv : m.Inv) (hobj : obj.Placeable) (h : m.placeObject row col obj = some (b, m')) :
    m'.Inv := by
  unfold GameModel.placeObject at h
  cases hc : m.grid.cell row col with
  | none => rw [hc] at h; simp at h
  | some old =>
    rw [hc] at h
    by_cases hold : old = Cell.empty
    · subst hold
      cases obj with
      | treasure w =>
        simp only [ne_eq, not_true_eq_false, if_false, Option.some.injEq, Prod.mk.injEq] at h
        rw [← h.2]
        exact inv_place m _ row col (Cell.treasure w) hinv hobj hc rfl rfl rfl (Or.inl rfl) rfl
      | empty =>
        simp only [ne_eq, not_true_eq_false, if_false, Option.some.injEq, Prod.mk.injEq] at h
        rw [← h.2]
        exact inv_place m _ row col Cell.empty hinv hobj hc rfl rfl rfl (Or.inl rfl) rfl
      | obstacle =>
        simp only [ne_eq, not_true_eq_false, if_false, Option.some.injEq, Prod.mk.injEq] at h
        rw [← h.2]
        exact inv_place m _ row col Cell.obstacle hinv hobj hc rfl rfl rfl (Or.inl rfl) rfl
      | hunter =>
        simp only [ne_eq, not_true_eq_false, if_false] at h
        split at h
        · simp only [Option.some.injEq, Prod.mk.injEq] at h
          rw [← h.2]
          exact inv_place m _ row col Cell.hunter hinv hobj hc rfl rfl rfl (Or.inl rfl) rfl
        · simp only [Option.some.injEq, Prod.mk.injEq] at h
          rw [← h.2]
          exact inv_place m _ row col Cell.hunter hinv hobj hc rfl rfl rfl
            (Or.inr ⟨rfl, rfl⟩) rfl
    · simp only [ne_eq, hold, not_false_eq_true, if_true, Option.some.injEq, Prod.mk.injEq] at h
      rw [← h.2]
      exact hinv

/-! ## Placing a second hunter -/

/-- C1, as the code behaves: on the 5×5 game with the hunter at (0,0), placing a
second hunter on the empty cell (0,1) returns `false`, yet the cell (0,1) of the
grid has become a hunter: the grid is written before the hunter check. -/
theorem placeObject_second_hunter_writes_grid :
    ∃ m', hunterPlaced.placeObject 0 1 Cell.hunter = some (false, m') ∧
      hunterPlaced.grid.cell 0 1 = some Cell.empty ∧
      m'.grid.cell 0 1 = some Cell.hunter ∧
      m'.grid ≠ hunterPlaced.grid ∧
      m'.hunterPosition = hunterPlaced.hunterPosition := by
  refine ⟨{ hunterPlaced with grid := hunterPlaced.grid.setCell 0 1 Cell.hunter }, ?_⟩
  decide

/-- C2, as the code behaves: from a fresh 5×5 model, `placeObject(0,0,hunter)`
succeeds and `placeObject(0,1,hunter)` then returns `false` but leaves a state
whose grid holds two hunter cells. -/
theorem two_hunter_cells_reachable :
    ∃ m1 m2, (GameModel.new 5 5).placeObject 0 0 Cell.hunter = some (true, m1) ∧
      m1.placeObject 0 1 Cell.hunter = some (false, m2) ∧
      m2.grid.countCells Cell.hunter = 2 ∧
      m2.grid.cell 0 0 = some Cell.hunter ∧ m2.grid.cell 0 1 = some Cell.hunter := by
  refine ⟨hunterPlaced, { hunterPlaced with grid := hunterPlaced.grid.setCell 0 1 Cell.hunter }, ?_⟩
  decide

/-! ## Failed moves -/

/-- C4: a call of `moveHunter` that returns `false` leaves the whole model as it
was; and the call returns `false`, with the model unchanged, when no hunter is
placed, when the direction is not one of the four keys, when the target is
outside the grid and when the target cell is an obstacle. -/
theorem moveHunter_false_unchanged (m : GameModel) (direction : String) (rnd : Draw) :
    (∀ m', m.moveHunter direction rnd = some (false, m') → m' = m) ∧
    (m.hunterPosition = none → m.moveHunter direction rnd = some (false, m)) ∧
    (∀ row col, m.hunterPosition = some (row, col) →
      moveTarget direction row col = none → m.moveHunter direction rnd = some (false, m)) ∧
    (∀ row col newRow newCol, m.hunterPosition = some (row, col) →
      moveTarget direction row col = some (newRow, newCol) →
      ((newRow < 0 ∨ newRow ≥ (m.rows : Int) ∨ newCol < 0 ∨ newCol ≥ (m.cols : Int)) ∨
        m.grid.cell newRow.toNat newCol.toNat = some Cell.obstacle) →
      m.moveHunter direction rnd = some (false, m)) := by
  refine ⟨?_, ?_, ?_, ?_⟩
  · intro m' h
    simp only [GameModel.moveHunter] at h
    repeat' split at h
    all_goals first
      | (simp only [Option.some.injEq, Prod.mk.injEq, true_and] at h; exact h.symm)
      | (simp [GameModel.arrive] at h)
  · intro h
    simp [GameModel.moveHunter, h]
  · intro row col h ht
    simp [GameModel.moveHunter, h, ht]
  · intro row col newRow newCol h ht hb
    simp only [GameModel.moveHunter, h, ht]
    by_cases hoob : newRow < 0 ∨ newRow ≥ (m.rows : Int) ∨ newCol < 0 ∨ newCol ≥ (m.cols : Int)
    · rw [if_pos hoob]
    · rw [if_neg hoob]
      rcases hb with hb | hb
      · exact absurd hb hoob
      · simp [hb]

/-- C4 at the 5×5 game with the hunter on (0,0): moving up targets row -1,
outside the grid, so the call returns `false` and the model is unchanged. -/
theorem moveHunter_false_unchanged_witness :
    hunterPlaced.hunterPosition = some (0, 0) ∧
    moveTarget "w" 0 0 = some (-1, 0) ∧
    hunterPlaced.moveHunter "w" ⟨0, 1⟩ = some (false, hunterPlaced) :=
  ⟨by decide, by decide,
    (moveHunter_false_unchanged hunterPlaced "w" ⟨0, 1⟩).2.2.2 0 0 (-1) 0 (by decide) (by decide)
      (Or.inl (Or.inl (by decide)))⟩

/-! ## Stages -/

theorem placeRandomObstacle_gameStage (m m' : GameModel) (rnd : Draw)
    (h : m.placeRandomObstacle rnd = some m') : m'.gameStage = m.gameStage := by
  simp only [GameModel.placeRandomObstacle] at h
  repeat' split at h
  all_goals first
    | (simp only [Option.some.injEq] at h; rw [← h])
    | (simp at h)

/-- The two ways `moveHunter` returns: `false` with the model untouched, or
`true` after the source cell was emptied, a treasure on the target (if any) was
collected with an obstacle spawned, and the hunter object was written to the
target. -/
theorem moveHunter_cases (m m' : GameModel) (direction : String) (rnd : Draw) (b : Bool)
    (h : m.moveHunter direction rnd = some (b, m')) :
    (b = false ∧ m' = m) ∨
    ∃ row col newRow newCol hunterObj target mid,
      b = true ∧
      m.hunterPosition = some (row, col) ∧
      moveTarget direction row col = some (newRow, newCol) ∧
      (0 ≤ newRow ∧ newRow < (m.rows : Int) ∧ 0 ≤ newCol ∧ newCol < (m.cols : Int)) ∧
      m.grid.cell newRow.toNat newCol.toNat = some target ∧
      target ≠ Cell.obstacle ∧
      m.grid.cell row col = some hunterObj ∧
      m' = (mid.arrive newRow.toNat newCol.toNat hunterObj).2 ∧
      (((∀ v, target ≠ Cell.treasure v) ∧
          mid = { m with grid := m.grid.setCell row col Cell.empty }) ∨
        ∃ v, target = Cell.treasure v ∧
          ({ m with
              grid := m.grid.setCell row col Cell.empty
              score := numAdd m.score v
              treasureCounts := m.treasureCounts.dec v } : GameModel).placeRandomObstacle rnd =
            some mid) := by
  cases hpos : m.hunterPosition with
  | none =>
    simp only [GameModel.moveHunter, hpos, Option.some.injEq, Prod.mk.injEq] at h
    exact Or.inl ⟨h.1.symm, h.2.symm⟩
  | some pos =>
    obtain ⟨row, col⟩ := pos
    cases ht : moveTarget direction row col with
    | none =>
      simp only [GameModel.moveHunter, hpos, ht, Option.some.injEq, Prod.mk.injEq] at h
      exact Or.inl ⟨h.1.symm, h.2.symm⟩
    | some t =>
      obtain ⟨newRow, newCol⟩ := t
      by_cases hoob : newRow < 0 ∨ newRow ≥ (m.rows : Int) ∨ newCol < 0 ∨ newCol ≥ (m.cols : Int)
      · simp only [GameModel.moveHunter, hpos, ht, if_pos hoob, Option.some.injEq,
          Prod.mk.injEq] at h
        exact Or.inl ⟨h.1.symm, h.2.symm⟩
      · have hin : 0 ≤ newRow ∧ newRow < (m.rows : Int) ∧ 0 ≤ newCol ∧ newCol < (m.cols : Int) := by
          omega
        have hne : (newRow.toNat, newCol.toNat) ≠ (row, col) :=
          moveTarget_ne direction row col newRow newCol ht hin.1 hin.2.2.1
        cases htar : m.grid.cell newRow.toNat newCol.toNat with
        | none => simp [GameModel.moveHunter, hpos, ht, hoob, htar] at h
        | some target =>
          by_cases hobs : target = Cell.obstacle
          · simp only [GameModel.moveHunter, hpos, ht, if_neg hoob, htar, if_pos hobs,
              Option.some.injEq, Prod.mk.injEq] at h
            exact Or.inl ⟨h.1.symm, h.2.symm⟩
          · cases hsrc : m.grid.cell row col with
            | none => simp [GameModel.moveHunter, hpos, ht, hoob, htar, hobs, hsrc] at h
            | some hunterObj =>
              have htar1 : (m.grid.setCell row col Cell.empty).cell newRow.toNat newCol.toNat =
                  some target := by
                rw [Grid.cell_setCell_ne _ _ _ _ _ _ hne, htar]
              right
              simp only [GameModel.moveHunter, hpos, ht, if_neg hoob, htar, if_neg hobs, hsrc,
                htar1] at h
              cases target with
              | treasure v =>
                simp only [] at h
                split at h
                · simp at h
                · rename_i m3 hplace
                  simp only [Option.some.injEq] at h
                  exact ⟨row, col, newRow, newCol, hunterObj, Cell.treasure v, m3,
                    (congrArg Prod.fst h).symm, rfl, ht, hin, htar, hobs, hsrc,
                    (congrArg Prod.snd h).symm, Or.inr ⟨v, rfl, hplace⟩⟩
              | empty =>
                simp only [Option.some.injEq] at h
                exact ⟨row, col, newRow, newCol, hunterObj, Cell.empty, _,
                  (congrArg Prod.fst h).symm, rfl, ht, hin, htar, hobs, hsrc,
                  (congrArg Prod.snd h).symm, Or.inl ⟨by simp, rfl⟩⟩
              | hunter =>
                simp only [Option.some.injEq] at h
                exact ⟨row, col, newRow, newCol, hunterObj, Cell.hunter, _,
                  (congrArg Prod.fst h).symm, rfl, ht, hin, htar, hobs, hsrc,
                  (congrArg Prod.snd h).symm, Or.inl ⟨by simp, rfl⟩⟩
              | obstacle => exact absurd rfl hobs

theorem moveHunter_gameStage (m m' : GameModel) (direction : String) (rnd : Draw) (b : Bool)
    (h : m.moveHunter direction rnd = some (b, m')) : m'.gameStage = m.gameStage := by
  rcases moveHunter_cases m m' direction rnd b h with ⟨_, hm⟩ |
    ⟨row, col, newRow, newCol, hunterObj, target, mid, _, _, _, _, _, _, _, hm, hmid⟩
  · rw [hm]
  · rw [hm]
    rcases hmid with ⟨_, hmid⟩ | ⟨v, _, hplace⟩
    · rw [hmid]; rfl
    · have hstage := placeRandomObstacle_gameStage _ mid rnd hplace
      exact hstage

/-- C7, as the code behaves: `placeObject` succeeds and writes the grid in the
play stage, and `moveHunter` succeeds and moves the hunter in the setup stage:
neither method reads `gameStage`. -/
theorem model_methods_ignore_stage :
    (scenarioA.gameStage = Stage.play ∧
      ∃ m', scenarioA.placeObject 1 1 Cell.obstacle = some (true, m') ∧
        scenarioA.grid.cell 1 1 = some Cell.empty ∧ m'.grid.cell 1 1 = some Cell.obstacle) ∧
    (hunterPlaced.gameStage = Stage.setup ∧
      ∃ m', hunterPlaced.moveHunter "d" ⟨0, 1⟩ = some (true, m') ∧
        m'.hunterPosition = some (0, 1) ∧ m'.rounds = 1) := by
  refine ⟨⟨by decide, { scenarioA with grid := scenarioA.grid.setCell 1 1 Cell.obstacle }, ?_⟩,
    ⟨by decide, (({ hunterPlaced with
      grid := hunterPlaced.grid.setCell 0 0 Cell.empty } : GameModel).arrive 0 1 Cell.hunter).2,
      ?_⟩⟩
  · decide
  · decide

/-- C7, amended: the stage gate is in the listeners of the controller.  Outside
the setup stage the click listener returns without touching the model, and
outside the play stage so does the keydown listener; in the setup stage a click
on a cell reaches `handleCellClick` (hence `placeObject`) and in the play stage a
key reaches `handleKeyDown` (hence `moveHunter`). -/
theorem listeners_stage_gated (m : GameModel) :
    (m.gameStage ≠ Stage.setup →
      ∀ target trimmedInput, clickListener m target trimmedInput = some m) ∧
    (m.gameStage ≠ Stage.play → ∀ key rnd, keydownListener m key rnd = some m) ∧
    (m.gameStage = Stage.setup → ∀ row col trimmedInput,
      clickListener m (some (row, col)) trimmedInput = handleCellClick m row col trimmedInput) ∧
    (m.gameStage = Stage.play → ∀ key rnd, keydownListener m key rnd = handleKeyDown m key rnd) := by
  refine ⟨?_, ?_, ?_, ?_⟩
  · intro h target trimmedInput
    unfold clickListener
    split
    · rfl
    · rw [if_neg h]
  · intro h key rnd
    unfold keydownListener
    rw [if_neg h]
  · intro h row col trimmedInput
    simp only [clickListener, if_pos h]
  · intro h key rnd
    unfold keydownListener
    rw [if_pos h]

/-- C7 amended, on concrete games: a click with the answer "o" in the play stage
and the key "d" in the setup stage leave the model as it was. -/
theorem listeners_stage_gated_witness :
    scenarioA.gameStage ≠ Stage.setup ∧ hunterPlaced.gameStage ≠ Stage.play ∧
    clickListener scenarioA (some (1, 1)) (some "o") = some scenarioA ∧
    keydownListener hunterPlaced "d" ⟨0, 1⟩ = some hunterPlaced :=
  ⟨by decide, by decide,
    (listeners_stage_gated scenarioA).1 (by decide) (some (1, 1)) (some "o"),
    (listeners_stage_gated hunterPlaced).2.1 (by decide) "d" ⟨0, 1⟩⟩

/-- C8, as the code behaves: from a fresh 5×5 game, after placing the hunter and
one treasure, `endSetupStage` gives 'play', `endPlayStage` gives 'end', and a
further `endSetupStage` sets the stage back to 'play'. -/
theorem endSetupStage_leaves_end :
    ∃ m1 m2, (GameModel.new 5 5).placeObject 0 0 Cell.hunter = some (true, m1) ∧
      m1.placeObject 0 1 (Cell.treasure 5) = some (true, m2) ∧
      (endSetupStage m2).gameStage = Stage.play ∧
      (endPlayStage (endSetupStage m2)).gameStage = Stage.end_ ∧
      (endSetupStage (endPlayStage (endSetupStage m2))).gameStage = Stage.play := by
  refine ⟨hunterPlaced, setupA, ?_⟩
  decide

theorem handleKeyDown_gameStage (m m' : GameModel) (key : String) (rnd : Draw)
    (h : handleKeyDown m key rnd = some m') :
    m'.gameStage = m.gameStage ∨ m'.gameStage = Stage.end_ := by
  unfold handleKeyDown at h
  split at h
  · split at h
    · simp at h
    · rename_i m1 hmove
      simp only [Option.some.injEq] at h
      rw [← h]
      exact Or.inl (moveHunter_gameStage _ _ _ _ _ hmove)
    · rename_i m1 hmove
      have hstage := moveHunter_gameStage _ _ _ _ _ hmove
      repeat' split at h
      all_goals first
        | (simp only [Option.some.injEq] at h; rw [← h]; exact Or.inr rfl)
        | (simp only [Option.some.injEq] at h; rw [← h]; exact Or.inl hstage)
        | (simp at h)
  · simp only [Option.some.injEq] at h
    rw [← h]
    exact Or.inl rfl

/-- C8, amended: `endPlayStage` and `handleKeyDown` never move the stage
backward, nor does `endSetupStage` when the stage is 'setup' or 'play', and no
operation brings the stage back to 'setup' once it has left it.  (In the stage
'end', `endSetupStage` is the one operation that can change the stage.) -/
theorem stage_forward_outside_end (m : GameModel) (key : String) (rnd : Draw) :
    m.gameStage.rank ≤ (endPlayStage m).gameStage.rank ∧
    (∀ m', handleKeyDown m key rnd = some m' → m.gameStage.rank ≤ m'.gameStage.rank) ∧
    (m.gameStage ≠ Stage.end_ → m.gameStage.rank ≤ (endSetupStage m).gameStage.rank) ∧
    (m.gameStage ≠ Stage.setup →
      (endSetupStage m).gameStage ≠ Stage.setup ∧ (endPlayStage m).gameStage ≠ Stage.setup ∧
      ∀ m', handleKeyDown m key rnd = some m' → m'.gameStage ≠ Stage.setup) ∧
    (m.gameStage = Stage.end_ →
      (endPlayStage m).gameStage = Stage.end_ ∧
      ∀ m', handleKeyDown m key rnd = some m' → m'.gameStage = Stage.end_) := by
  have hkey : ∀ m', handleKeyDown m key rnd = some m' →
      m'.gameStage = m.gameStage ∨ m'.gameStage = Stage.end_ :=
    fun m' h => handleKeyDown_gameStage m m' key rnd h
  have hsetup : (endSetupStage m).gameStage = m.gameStage ∨
      (endSetupStage m).gameStage = Stage.play ∨ (endSetupStage m).gameStage = Stage.end_ := by
    unfold endSetupStage
    split
    · exact Or.inl rfl
    · simp only []
      split
      · exact Or.inr (Or.inr rfl)
      · exact Or.inr (Or.inl rfl)
  refine ⟨?_, ?_, ?_, ?_, ?_⟩
  · cases hs : m.gameStage <;> simp [endPlayStage, Stage.rank]
  · intro m' h
    rcases hkey m' h with h1 | h1 <;> rw [h1]
    cases hs : m.gameStage <;> simp [Stage.rank]
  · intro hne
    rcases hsetup with h1 | h1 | h1 <;> rw [h1] <;>
      cases hs : m.gameStage <;> simp_all [Stage.rank]
  · intro hne
    refine ⟨?_, by simp [endPlayStage], ?_⟩
    · rcases hsetup with h1 | h1 | h1 <;> rw [h1] <;> simp [hne]
    · intro m' h
      rcases hkey m' h with h1 | h1 <;> rw [h1] <;> simp [hne]
  · intro hend
    refine ⟨rfl, ?_⟩
    intro m' h
    rcases hkey m' h with h1 | h1
    · rw [h1, hend]
    · exact h1

/-- C8 amended, on Scenario A (stage 'play'): `endSetupStage` keeps 'play' and
`handleKeyDown "d"` ends the game, both forward. -/
theorem stage_forward_outside_end_witness :
    scenarioA.gameStage ≠ Stage.end_ ∧ scenarioA.gameStage ≠ Stage.setup ∧
    scenarioA.gameStage.rank ≤ (endSetupStage scenarioA).gameStage.rank ∧
    (endSetupStage scenarioA).gameStage ≠ Stage.setup :=
  ⟨by decide, by decide,
    (stage_forward_outside_end scenarioA "d" ⟨0, 1⟩).2.2.1 (by decide),
    ((stage_forward_outside_end scenarioA "d" ⟨0, 1⟩).2.2.2.1 (by decide)).1⟩

/-! ## End of play after a key -/

/-- C9: in the play stage, for a key among w, a, s, d: when the move succeeds and
then `getTotalTreasures()` is 0 or `canHunterMove()` is false, `handleKeyDown`
ends with `gameStage = 'end'`; when the move succeeds and neither holds, or when
the move fails, the stage is still 'play'. -/
theorem handleKeyDown_end_conditions (m : GameModel) (key : String) (rnd : Draw)
    (hplay : m.gameStage = Stage.play)
    (hkey : key = "w" ∨ key = "a" ∨ key = "s" ∨ key = "d") :
    (∀ m1, m.moveHunter key rnd = some (true, m1) →
      (m1.getTotalTreasures = 0 ∨ m1.canHunterMove = some false) →
      handleKeyDown m key rnd = some (endPlayStage m1) ∧
        (endPlayStage m1).gameStage = Stage.end_) ∧
    (∀ m1, m.moveHunter key rnd = some (true, m1) →
      m1.getTotalTreasures ≠ 0 → m1.canHunterMove = some true →
      handleKeyDown m key rnd = some m1 ∧ m1.gameStage = Stage.play) ∧
    (∀ m1, m.moveHunter key rnd = some (false, m1) →
      handleKeyDown m key rnd = some m1 ∧ m1.gameStage = Stage.play) := by
  have hmem : key ∈ ["w", "a", "s", "d"] := by
    rcases hkey with h | h | h | h <;> rw [h] <;> decide
  refine ⟨?_, ?_, ?_⟩
  · intro m1 hmove hcond
    refine ⟨?_, rfl⟩
    unfold handleKeyDown
    rw [if_pos hmem, hmove]
    by_cases htot : m1.getTotalTreasures = 0
    · simp [htot]
    · rcases hcond with hc | hc
      · exact absurd hc htot
      · simp [htot, hc]
  · intro m1 hmove htot hcan
    refine ⟨?_, ?_⟩
    · unfold handleKeyDown
      rw [if_pos hmem, hmove]
      simp [htot, hcan]
    · rw [moveHunter_gameStage m m1 key rnd true hmove, hplay]
  · intro m1 hmove
    refine ⟨?_, ?_⟩
    · unfold handleKeyDown
      rw [if_pos hmem, hmove]
    · rw [moveHunter_gameStage m m1 key rnd false hmove, hplay]

/-- C9 on the 2×2 game `cornered`: the hunter steps right onto the treasure, the
obstacle spawns on the cell it left, every in-bounds neighbour of the hunter is
then an obstacle while a treasure remains, and the game ends. -/
theorem handleKeyDown_end_conditions_witness :
    cornered.gameStage = Stage.play ∧
    ∃ m1, cornered.moveHunter "d" ⟨0, 1⟩ = some (true, m1) ∧
      m1.getTotalTreasures = 1 ∧ m1.canHunterMove = some false ∧
      handleKeyDown cornered "d" ⟨0, 1⟩ = some (endPlayStage m1) ∧
      (endPlayStage m1).gameStage = Stage.end_ :=
  ⟨by decide, cornered.afterPickup 0 0 (0, 0) 0 1 Cell.hunter 5, by decide, by decide, by decide,
    (handleKeyDown_end_conditions cornered "d" ⟨0, 1⟩ (by decide) (Or.inr (Or.inr (Or.inr rfl)))).1
      (cornered.afterPickup 0 0 (0, 0) 0 1 Cell.hunter 5) (by decide) (Or.inr (by decide))⟩

/-! ## End of setup -/

/-- C10: from a state with a hunter placed (in the setup stage, or in any
other: the method does not read the stage), `endSetupStage` leaves
`gameStage = 'end'` when the total treasure count is zero and `gameStage = 'play'`
when it is positive. -/
theorem endSetupStage_cascade (m : GameModel) (hhunter : m.hunterPosition ≠ none) :
    (m.getTotalTreasures = 0 → (endSetupStage m).gameStage = Stage.end_) ∧
    (0 < m.getTotalTreasures → (endSetupStage m).gameStage = Stage.play) := by
  have htot : ∀ s, ({ m with gameStage := s } : GameModel).getTotalTreasures =
      m.getTotalTreasures := fun _ => rfl
  constructor
  · intro h0
    unfold endSetupStage
    rw [if_neg hhunter]
    simp only [htot, h0, if_true]
    rfl
  · intro hpos
    have hne : m.getTotalTreasures ≠ 0 := by omega
    unfold endSetupStage
    rw [if_neg hhunter]
    simp only [htot, hne, if_false]

/-- C10 on concrete games: with the hunter alone on the grid the stage is 'end'
after `endSetupStage`, with one treasure placed it is 'play'. -/
theorem endSetupStage_cascade_witness :
    (hunterPlaced.gameStage = Stage.setup ∧ hunterPlaced.hunterPosition ≠ none ∧
      hunterPlaced.getTotalTreasures = 0 ∧ (endSetupStage hunterPlaced).gameStage = Stage.end_) ∧
    (setupA.gameStage = Stage.setup ∧ setupA.hunterPosition ≠ none ∧
      0 < setupA.getTotalTreasures ∧ (endSetupStage setupA).gameStage = Stage.play) :=
  ⟨⟨by decide, by decide, by decide,
      (endSetupStage_cascade hunterPlaced (by decide)).1 (by decide)⟩,
    ⟨by decide, by decide, by decide,
      (endSetupStage_cascade setupA (by decide)).2 (by decide)⟩⟩

/-! ## The invariant is kept by moves -/

theorem placeRandomObstacle_cases (m m' : GameModel) (rnd : Draw)
    (h : m.placeRandomObstacle rnd = some m') :
    m' = m ∨ ∃ p ∈ m.emptyCells, m' = { m with grid := m.grid.setCell p.1 p.2 Cell.obstacle } := by
  unfold GameModel.placeRandomObstacle at h
  split at h
  · simp only [] at h
    split at h
    · cases hidx : m.emptyCells[randomIndex rnd m.emptyCells.length]? with
      | none => rw [hidx] at h; simp at h
      | some p =>
        obtain ⟨row, col⟩ := p
        rw [hidx] at h
        simp only [Option.some.injEq] at h
        exact Or.inr ⟨(row, col), List.mem_iff_getElem?.mpr ⟨_, hidx⟩, h.symm⟩
    · simp only [Option.some.injEq] at h
      exact Or.inl h.symm
  · simp at h

theorem shape_setCell (g : Grid) (rows cols r c : Nat) (x : Cell)
    (h : g.length = rows ∧ ∀ cells ∈ g, cells.length = cols) :
    (g.setCell r c x).length = rows ∧ ∀ cells ∈ g.setCell r c x, cells.length = cols :=
  ⟨by rw [Grid.setCell_length]; exact h.1, Grid.setCell_row_length g r c x cols h.2⟩

/-- The grid after a successful move, when the source cell held the hunter:
`g3` is the grid between the emptying of the source and the arrival (with or
without a spawned obstacle).  The count of a kind of cell `q` that is neither
hunter, empty nor obstacle drops by one exactly when the target was of that
kind. -/
theorem Grid.countP_after_move (g g3 : Grid) (q : Cell → Bool) (row col tr tc : Nat)
    (target : Cell) (hqh : q Cell.hunter = false) (hqe : q Cell.empty = false)
    (hqo : q Cell.obstacle = false)
    (hsrc : g.cell row col = some Cell.hunter) (hne : (tr, tc) ≠ (row, col))
    (htar : g.cell tr tc = some target)
    (hg3 : g3 = g.setCell row col Cell.empty ∨
      ∃ p : Nat × Nat, p ≠ (tr, tc) ∧ (g.setCell row col Cell.empty).cell p.1 p.2 = some Cell.empty ∧
        g3 = (g.setCell row col Cell.empty).setCell p.1 p.2 Cell.obstacle) :
    (g3.setCell tr tc Cell.hunter).countP q + (if q target then 1 else 0) = g.countP q ∧
    (g3.setCell tr tc Cell.hunter).cell tr tc = some Cell.hunter := by
  have h1 := Grid.countP_setCell g q row col Cell.empty Cell.hunter hsrc
  rw [hqh, hqe] at h1
  have htar1 : (g.setCell row col Cell.empty).cell tr tc = some target := by
    rw [Grid.cell_setCell_ne _ _ _ _ _ _ hne, htar]
  have key : g3.cell tr tc = some target ∧ g3.countP q = g.countP q := by
    rcases hg3 with hg3 | ⟨p, hpt, hpe, hg3⟩
    · rw [hg3]
      exact ⟨htar1, by simpa using h1⟩
    · have h2 := Grid.countP_setCell (g.setCell row col Cell.empty) q p.1 p.2 Cell.obstacle
        Cell.empty hpe
      rw [hqo, hqe] at h2
      have hpt' : (tr, tc) ≠ (p.1, p.2) := fun e => hpt e.symm
      rw [hg3, Grid.cell_setCell_ne _ _ _ _ _ _ hpt']
      refine ⟨htar1, ?_⟩
      simp only [Bool.false_eq_true, if_false, Nat.add_zero] at h1 h2
      rw [h2, h1]
  have h3 := Grid.countP_setCell g3 q tr tc Cell.hunter target key.1
  rw [hqh] at h3
  refine ⟨?_, Grid.cell_setCell_self _ _ _ _ (by rw [key.1]; rfl)⟩
  rw [← key.2]
  simpa using h3

theorem moveHunter_inv {m m' : GameModel} (direction : String) (rnd : Draw) (b : Bool)
    (hinv : m.Inv) (h : m.moveHunter direction rnd = some (b, m')) : m'.Inv := by
  rcases moveHunter_cases m m' direction rnd b h with ⟨_, hm⟩ |
    ⟨row, col, newRow, newCol, hunterObj, target, mid, _, hpos, ht, hin, htar, hobs, hsrc, hm,
      hmid⟩
  · rw [hm]; exact hinv
  obtain ⟨hwf, hh, hcnt, htot⟩ := hinv
  have hobj : hunterObj = Cell.hunter := by
    have := hh row col hpos
    rw [hsrc] at this
    exact Option.some.inj this
  subst hobj
  have hne : (newRow.toNat, newCol.toNat) ≠ (row, col) :=
    moveTarget_ne direction row col newRow newCol ht hin.1 hin.2.2.1
  have hshape1 := shape_setCell m.grid m.rows m.cols row col Cell.empty hwf
  rcases hmid with ⟨hnot, hmid⟩ | ⟨v, hv, hplace⟩
  · -- the target was not a treasure
    have hgrid : m'.grid = (m.grid.setCell row col Cell.empty).setCell newRow.toNat newCol.toNat
        Cell.hunter := by rw [hm, hmid]; rfl
    have hcounts : m'.treasureCounts = m.treasureCounts := by rw [hm, hmid]; rfl
    have hnotT : target.isTreasure = false := by
      cases target with
      | treasure w => exact absurd rfl (hnot w)
      | _ => rfl
    refine ⟨?_, ?_, ?_, ?_⟩
    · have hs := shape_setCell _ m.rows m.cols newRow.toNat newCol.toNat Cell.hunter hshape1
      unfold GameModel.WellFormed
      rw [hgrid]
      rw [show m'.rows = m.rows by rw [hm, hmid]; rfl, show m'.cols = m.cols by rw [hm, hmid]; rfl]
      exact hs
    · intro r0 c0 hp0
      have hp1 : m'.hunterPosition = some (newRow.toNat, newCol.toNat) := by rw [hm]; rfl
      rw [hp1] at hp0
      obtain ⟨e1, e2⟩ := Prod.mk.inj (Option.some.inj hp0)
      subst e1; subst e2
      rw [hgrid]
      exact (Grid.countP_after_move m.grid _ Cell.isTreasure row col _ _ target rfl rfl rfl hsrc
        hne htar (Or.inl rfl)).2
    · intro w
      have hq : (target == Cell.treasure w) = false := by
        cases target with
        | treasure u => exact absurd rfl (hnot u)
        | _ => rfl
      have := (Grid.countP_after_move m.grid _ (fun y => y == Cell.treasure w) row col _ _ target
        rfl rfl rfl hsrc hne htar (Or.inl rfl)).1
      simp only [hq, Bool.false_eq_true, if_false, Nat.add_zero] at this
      unfold Grid.countCells
      rw [hgrid, this, hcounts]
      exact hcnt w
    · have := (Grid.countP_after_move m.grid _ Cell.isTreasure row col _ _ target rfl rfl rfl hsrc
        hne htar (Or.inl rfl)).1
      simp only [hnotT, Bool.false_eq_true, if_false, Nat.add_zero] at this
      unfold Grid.countTreasures
      rw [hgrid, this]
      have : m'.getTotalTreasures = m.getTotalTreasures := by
        unfold GameModel.getTotalTreasures; rw [hcounts]
      rw [this]
      exact htot
  · -- the target was a treasure of value v
    subst hv
    have hvalid : v = 5 ∨ v = 6 ∨ v = 7 ∨ v = 8 := by
      by_contra hcon
      have hzero := TreasureCounts.get_of_not_key m.treasureCounts v hcon
      have hposc := Grid.countP_pos m.grid (fun y => y == Cell.treasure v) _ _ _ htar (by simp)
      have := hcnt v
      unfold Grid.countCells at this
      rw [hzero] at this
      omega
    have hg3 : mid.grid = m.grid.setCell row col Cell.empty ∨
        ∃ p : Nat × Nat, p ≠ (newRow.toNat, newCol.toNat) ∧
          (m.grid.setCell row col Cell.empty).cell p.1 p.2 = some Cell.empty ∧
          mid.grid = (m.grid.setCell row col Cell.empty).setCell p.1 p.2 Cell.obstacle := by
      rcases placeRandomObstacle_cases _ _ _ hplace with hsame | ⟨p, hp, hsame⟩
      · left; rw [hsame]
      · right
        have hpe := ((mem_emptyCells _ p).mp hp).2
        refine ⟨p, ?_, hpe, by rw [hsame]⟩
        intro e
        rw [e] at hpe
        have hpe' : (m.grid.setCell row col Cell.empty).cell newRow.toNat newCol.toNat =
            some Cell.empty := hpe
        rw [Grid.cell_setCell_ne _ _ _ _ _ _ hne, htar] at hpe'
        simp at hpe'
    have hfields : mid.rows = m.rows ∧ mid.cols = m.cols ∧
        mid.treasureCounts = m.treasureCounts.dec v := by
      rcases placeRandomObstacle_cases _ _ _ hplace with hsame | ⟨p, _, hsame⟩ <;>
        rw [hsame] <;> exact ⟨rfl, rfl, rfl⟩
    have hgrid : m'.grid = mid.grid.setCell newRow.toNat newCol.toNat Cell.hunter := by
      rw [hm]; rfl
    have hcounts : m'.treasureCounts = m.treasureCounts.dec v := by
      rw [hm]; exact hfields.2.2
    refine ⟨?_, ?_, ?_, ?_⟩
    · have hs3 : mid.grid.length = m.rows ∧ ∀ cells ∈ mid.grid, cells.length = m.cols := by
        rcases hg3 with e | ⟨p, _, _, e⟩
        · rw [e]; exact hshape1
        · rw [e]; exact shape_setCell _ m.rows m.cols p.1 p.2 Cell.obstacle hshape1
      have hs := shape_setCell _ m.rows m.cols newRow.toNat newCol.toNat Cell.hunter hs3
      unfold GameModel.WellFormed
      rw [hgrid]
      rw [show m'.rows = m.rows by rw [hm]; exact hfields.1,
        show m'.cols = m.cols by rw [hm]; exact hfields.2.1]
      exact hs
    · intro r0 c0 hp0
      have hp1 : m'.hunterPosition = some (newRow.toNat, newCol.toNat) := by rw [hm]; rfl
      rw [hp1] at hp0
      obtain ⟨e1, e2⟩ := Prod.mk.inj (Option.some.inj hp0)
      subst e1; subst e2
      rw [hgrid]
      exact (Grid.countP_after_move m.grid _ Cell.isTreasure row col _ _ _ rfl rfl rfl hsrc
        hne htar hg3).2
    · intro w
      have := (Grid.countP_after_move m.grid _ (fun y => y == Cell.treasure w) row col _ _ _
        rfl rfl rfl hsrc hne htar hg3).1
      have hold := hcnt w
      unfold Grid.countCells at hold ⊢
      rw [hgrid, hcounts, TreasureCounts.get_dec _ w v hvalid, ← hold]
      by_cases hwv : w = v
      · subst hwv
        simp at this
        rw [← this]
        simp
      · have hvw : ¬ v = w := fun e => hwv e.symm
        simp [hvw] at this
        rw [this]
        simp [hwv]
    · have := (Grid.countP_after_move m.grid _ Cell.isTreasure row col _ _ _ rfl rfl rfl hsrc
        hne htar hg3).1
      simp only [Cell.isTreasure, if_true] at this
      unfold Grid.countTreasures at htot ⊢
      rw [hgrid, getTotalTreasures_dec m v hvalid m' hcounts, ← htot, ← this]
      simp

/-- Every reachable state satisfies the invariant. -/
theorem Reachable.inv {m : GameModel} (h : Reachable m) : m.Inv := by
  induction h with
  | fresh rows cols => exact inv_new rows cols
  | place row col obj b _ hobj hstep ih => exact placeObject_inv row col obj b ih hobj hstep
  | move direction rnd b _ _ hstep ih => exact moveHunter_inv direction rnd b ih hstep

/-! ## The operations return on reachable states -/

/-- On a well-formed model `placeObject` returns for a cell of the grid, and
faults before any write (the `TypeError` of the first read) for any other. -/
theorem placeObject_returns {m : GameModel} (hwf : m.WellFormed) (row col : Nat) (obj : Cell) :
    (row < m.rows ∧ col < m.cols → ∃ b m', m.placeObject row col obj = some (b, m')) ∧
    (¬(row < m.rows ∧ col < m.cols) → m.placeObject row col obj = none) := by
  constructor
  · intro hin
    have hsome := (hwf.cell_isSome row col).mpr hin
    cases hc : m.grid.cell row col with
    | none => rw [hc] at hsome; simp at hsome
    | some old =>
      unfold GameModel.placeObject
      rw [hc]
      by_cases hold : old = Cell.empty
      · simp only [ne_eq, hold, not_true_eq_false, if_false]
        cases obj with
        | hunter =>
          simp only []
          split
          · exact ⟨_, _, rfl⟩
          · exact ⟨_, _, rfl⟩
        | _ => exact ⟨_, _, rfl⟩
      · simp only [ne_eq, hold, not_false_eq_true, if_true]
        exact ⟨_, _, rfl⟩
  · intro hout
    have hnone : m.grid.cell row col = none := by
      cases hc : m.grid.cell row col with
      | none => rfl
      | some old =>
        exact absurd ((hwf.cell_isSome row col).mp (by rw [hc]; rfl)) hout
    unfold GameModel.placeObject
    rw [hnone]

/-- On a state satisfying the invariant, with a draw in `[0, 1)`, `moveHunter`
returns. -/
theorem moveHunter_returns {m : GameModel} (hinv : m.Inv) (direction : String) (rnd : Draw)
    (hrnd : rnd.Valid) : ∃ b m', m.moveHunter direction rnd = some (b, m') := by
  obtain ⟨hwf, hh, _, _⟩ := hinv
  cases hpos : m.hunterPosition with
  | none => exact ⟨false, m, by simp [GameModel.moveHunter, hpos]⟩
  | some pos =>
    obtain ⟨row, col⟩ := pos
    cases ht : moveTarget direction row col with
    | none => exact ⟨false, m, by simp [GameModel.moveHunter, hpos, ht]⟩
    | some t =>
      obtain ⟨newRow, newCol⟩ := t
      by_cases hoob : newRow < 0 ∨ newRow ≥ (m.rows : Int) ∨ newCol < 0 ∨ newCol ≥ (m.cols : Int)
      · exact ⟨false, m, by simp only [GameModel.moveHunter, hpos, ht, if_pos hoob]⟩
      · have hsome := (hwf.cell_isSome newRow.toNat newCol.toNat).mpr ⟨by omega, by omega⟩
        have hsrc := hh row col hpos
        have hne : (newRow.toNat, newCol.toNat) ≠ (row, col) :=
          moveTarget_ne direction row col newRow newCol ht (by omega) (by omega)
        cases htar : m.grid.cell newRow.toNat newCol.toNat with
        | none => rw [htar] at hsome; simp at hsome
        | some target =>
          have htar1 : (m.grid.setCell row col Cell.empty).cell newRow.toNat newCol.toNat =
              some target := by
            rw [Grid.cell_setCell_ne _ _ _ _ _ _ hne, htar]
          cases target with
          | obstacle =>
            exact ⟨false, m, by simp [GameModel.moveHunter, hpos, ht, hoob, htar]⟩
          | treasure v =>
            obtain ⟨p, _, _, _, hmove⟩ := moveHunter_treasure_eq hwf direction rnd hrnd row col
              newRow newCol v Cell.hunter hpos ht hoob htar hsrc
            exact ⟨true, _, hmove⟩
          | empty =>
            refine ⟨true, (({ m with grid := m.grid.setCell row col Cell.empty } :
              GameModel).arrive newRow.toNat newCol.toNat Cell.hunter).2, ?_⟩
            simp only [GameModel.moveHunter, hpos, ht, if_neg hoob, htar, hsrc, htar1]
            simp [GameModel.arrive, hpos]
          | hunter =>
            refine ⟨true, (({ m with grid := m.grid.setCell row col Cell.empty } :
              GameModel).arrive newRow.toNat newCol.toNat Cell.hunter).2, ?_⟩
            simp only [GameModel.moveHunter, hpos, ht, if_neg hoob, htar, hsrc, htar1]
            simp [GameModel.arrive, hpos]

theorem canMoveFrom_returns {m : GameModel} (hwf : m.WellFormed) (row col : Nat)
    (dirs : List (Int × Int)) : ∃ b, m.canMoveFrom row col dirs = some b := by
  induction dirs with
  | nil => exact ⟨false, rfl⟩
  | cons d rest ih =>
    obtain ⟨r, c⟩ := d
    unfold GameModel.canMoveFrom
    simp only []
    split
    · rename_i hin
      have hsome := (hwf.cell_isSome ((row : Int) + r).toNat ((col : Int) + c).toNat).mpr
        ⟨by omega, by omega⟩
      cases hc : m.grid.cell ((row : Int) + r).toNat ((col : Int) + c).toNat with
      | none => rw [hc] at hsome; simp at hsome
      | some x =>
        simp only []
        split
        · exact ⟨true, rfl⟩
        · exact ih
    · exact ih

/-- On a well-formed model `canHunterMove` returns. -/
theorem canHunterMove_returns {m : GameModel} (hwf : m.WellFormed) :
    ∃ b, m.canHunterMove = some b := by
  unfold GameModel.canHunterMove
  split
  · exact ⟨false, rfl⟩
  · exact canMoveFrom_returns hwf _ _ _

/-- On a state satisfying the invariant, with a draw in `[0, 1)`,
`handleKeyDown` returns. -/
theorem handleKeyDown_returns {m : GameModel} (hinv : m.Inv) (key : String) (rnd : Draw)
    (hrnd : rnd.Valid) : ∃ m', handleKeyDown m key rnd = some m' := by
  unfold handleKeyDown
  split
  · obtain ⟨b, m1, hmove⟩ := moveHunter_returns hinv key rnd hrnd
    rw [hmove]
    cases b with
    | false => exact ⟨m1, rfl⟩
    | true =>
      simp only []
      split
      · exact ⟨_, rfl⟩
      · obtain ⟨c, hc⟩ := canHunterMove_returns (moveHunter_inv key rnd true hinv hmove).1
        rw [hc]
        cases c with
        | false => exact ⟨_, rfl⟩
        | true => exact ⟨_, rfl⟩
  · exact ⟨m, rfl⟩

/-! ## The ledger matches the grid -/

theorem reachable_afterMove : Reachable afterMove :=
  Reachable.move "d" ⟨11, 5⟩ true
    (Reachable.place 0 1 (Cell.treasure 5) true
      (Reachable.place 0 0 Cell.hunter true (Reachable.fresh 5 5) trivial
        (by decide : (GameModel.new 5 5).placeObject 0 0 Cell.hunter = some (true, hunterPlaced)))
      (Or.inl rfl)
      (by decide : hunterPlaced.placeObject 0 1 (Cell.treasure 5) = some (true, setupA)))
    (by decide)
    (by decide : setupA.moveHunter "d" ⟨11, 5⟩ = some (true, afterMove))

/-- C3: in every state reached from a fresh model by `placeObject` (treasure
values 5..8) and `moveHunter` calls, `treasureCounts[v]` is the number of grid
cells holding a treasure of value `v`, for each `v` in 5..8, and
`getTotalTreasures()` is the number of treasure cells of the grid. -/
theorem treasureCounts_match_grid {m : GameModel} (h : Reachable m) :
    (∀ v, v = 5 ∨ v = 6 ∨ v = 7 ∨ v = 8 →
      m.treasureCounts.get v = (m.grid.countCells (Cell.treasure v) : Int)) ∧
    m.getTotalTreasures = (m.grid.countTreasures : Int) :=
  ⟨fun v _ => (h.inv.2.2.1 v).symm, h.inv.2.2.2.symm⟩

/-- C3 on the state reached by placing the hunter and a treasure 5 and moving
onto it: every count is 0 and no treasure cell is left. -/
theorem treasureCounts_match_grid_witness :
    Reachable afterMove ∧
    (∀ v, v = 5 ∨ v = 6 ∨ v = 7 ∨ v = 8 →
      afterMove.treasureCounts.get v = (afterMove.grid.countCells (Cell.treasure v) : Int)) ∧
    afterMove.getTotalTreasures = (afterMove.grid.countTreasures : Int) :=
  ⟨reachable_afterMove, treasureCounts_match_grid reachable_afterMove⟩

/-! ## End of setup without a hunter -/

/-- C11: with no hunter placed, `endSetupStage` changes nothing: the stage is
still 'setup' and the grid, the counts, the score and the rounds are as
before. -/
theorem endSetupStage_without_hunter (m : GameModel) (hsetup : m.gameStage = Stage.setup)
    (hnone : m.hunterPosition = none) :
    endSetupStage m = m ∧ (endSetupStage m).gameStage = Stage.setup := by
  have h : endSetupStage m = m := by
    unfold endSetupStage
    rw [if_pos hnone]
  exact ⟨h, by rw [h, hsetup]⟩

/-- C11 on a fresh 5×5 game. -/
theorem endSetupStage_without_hunter_witness :
    (GameModel.new 5 5).gameStage = Stage.setup ∧ (GameModel.new 5 5).hunterPosition = none ∧
    endSetupStage (GameModel.new 5 5) = GameModel.new 5 5 ∧
    (endSetupStage (GameModel.new 5 5)).gameStage = Stage.setup :=
  ⟨by decide, by decide, endSetupStage_without_hunter (GameModel.new 5 5) (by decide) (by decide)⟩

/-! ## Placements -/

/-- C15: on a cell of the grid that is not Empty, `placeObject` returns `false`
for every object and leaves the model (grid, `treasureCounts`,
`hunterPosition` and the rest) as it was. -/
theorem placeObject_occupied (m : GameModel) (row col : Nat) (obj old : Cell)
    (hcell : m.grid.cell row col = some old) (hold : old ≠ Cell.empty) :
    m.placeObject row col obj = some (false, m) := by
  unfold GameModel.placeObject
  rw [hcell]
  simp only [ne_eq, hold, not_false_eq_true, if_true]

/-- C15 on `setupA`: placing a treasure on the cell (0,1), which holds a treasure
already, fails and the counts are as they were. -/
theorem placeObject_occupied_witness :
    setupA.grid.cell 0 1 = some (Cell.treasure 5) ∧ Cell.treasure 5 ≠ Cell.empty ∧
    setupA.placeObject 0 1 (Cell.treasure 6) = some (false, setupA) :=
  ⟨by decide, by decide,
    placeObject_occupied setupA 0 1 (Cell.treasure 6) (Cell.treasure 5) (by decide) (by decide)⟩

/-- C16: on an Empty cell of the grid, `placeObject` returns `true` for an
obstacle, for a treasure of value 5..8 and for a hunter when none is placed.
Afterwards the cell holds the object and every other cell is as before;
`treasureCounts[v]` has grown by one for a treasure of value `v` and no count has
changed otherwise; `hunterPosition` is `(row, col)` for a hunter and unchanged
otherwise; score and rounds are unchanged. -/
theorem placeObject_empty_cell (m : GameModel) (row col : Nat) (obj : Cell)
    (hcell : m.grid.cell row col = some Cell.empty)
    (hobj : obj = Cell.obstacle ∨ (∃ v, (v = 5 ∨ v = 6 ∨ v = 7 ∨ v = 8) ∧ obj = Cell.treasure v) ∨
      (obj = Cell.hunter ∧ m.hunterPosition = none)) :
    ∃ m', m.placeObject row col obj = some (true, m') ∧
      m'.grid.cell row col = some obj ∧
      (∀ r c, (r, c) ≠ (row, col) → m'.grid.cell r c = m.grid.cell r c) ∧
      (∀ v, obj = Cell.treasure v →
        m'.treasureCounts.get v = m.treasureCounts.get v + 1 ∧
        ∀ w, w ≠ v → m'.treasureCounts.get w = m.treasureCounts.get w) ∧
      ((∀ v, obj ≠ Cell.treasure v) → m'.treasureCounts = m.treasureCounts) ∧
      (obj = Cell.hunter → m'.hunterPosition = some (row, col)) ∧
      (obj ≠ Cell.hunter → m'.hunterPosition = m.hunterPosition) ∧
      m'.score = m.score ∧ m'.rounds = m.rounds ∧
      m'.rows = m.rows ∧ m'.cols = m.cols ∧ m'.gameStage = m.gameStage := by
  have hself : (m.grid.setCell row col obj).cell row col = some obj :=
    Grid.cell_setCell_self _ _ _ _ (by rw [hcell]; rfl)
  have hother : ∀ r c, (r, c) ≠ (row, col) →
      (m.grid.setCell row col obj).cell r c = m.grid.cell r c :=
    fun r c h => Grid.cell_setCell_ne _ _ _ _ _ _ h
  rcases hobj with h | ⟨v, hv, h⟩ | ⟨h, hnone⟩
  · subst h
    refine ⟨{ m with grid := m.grid.setCell row col Cell.obstacle }, ?_, hself, hother, ?_, ?_, ?_,
      ?_, rfl, rfl, rfl, rfl, rfl⟩
    · simp [GameModel.placeObject, hcell]
    · intro v hv; simp at hv
    · intro _; rfl
    · intro hh; simp at hh
    · intro _; rfl
  · subst h
    refine ⟨{ m with
        grid := m.grid.setCell row col (Cell.treasure v)
        treasureCounts := m.treasureCounts.inc v }, ?_, hself, hother, ?_, ?_, ?_, ?_,
      rfl, rfl, rfl, rfl, rfl⟩
    · simp [GameModel.placeObject, hcell]
    · intro u hu
      obtain rfl : v = u := by injection hu
      refine ⟨?_, ?_⟩
      · show (m.treasureCounts.inc v).get v = _
        rw [TreasureCounts.get_inc _ v v hv]; simp
      · intro w hw
        show (m.treasureCounts.inc v).get w = _
        rw [TreasureCounts.get_inc _ w v hv]; simp [hw]
    · intro hall; exact absurd rfl (hall v)
    · intro hh; simp at hh
    · intro _; rfl
  · subst h
    refine ⟨{ m with
        grid := m.grid.setCell row col Cell.hunter
        hunterPosition := some (row, col) }, ?_, hself, hother, ?_, ?_, ?_, ?_,
      rfl, rfl, rfl, rfl, rfl⟩
    · simp [GameModel.placeObject, hcell, hnone]
    · intro v hv; simp at hv
    · intro _; rfl
    · intro _; rfl
    · intro hh; exact absurd rfl hh

/-- C16 on the game `hunterPlaced`: a treasure of value 5 goes on the empty cell
(0,1) and `treasureCounts[5]` becomes 1. -/
theorem placeObject_empty_cell_witness :
    hunterPlaced.grid.cell 0 1 = some Cell.empty ∧
    hunterPlaced.placeObject 0 1 (Cell.treasure 5) = some (true, setupA) ∧
    setupA.treasureCounts.get 5 = hunterPlaced.treasureCounts.get 5 + 1 ∧
    ∃ m', hunterPlaced.placeObject 0 1 (Cell.treasure 5) = some (true, m') ∧
      m'.grid.cell 0 1 = some (Cell.treasure 5) ∧
      (∀ r c, (r, c) ≠ (0, 1) → m'.grid.cell r c = hunterPlaced.grid.cell r c) ∧
      (∀ v, Cell.treasure 5 = Cell.treasure v →
        m'.treasureCounts.get v = hunterPlaced.treasureCounts.get v + 1 ∧
        ∀ w, w ≠ v → m'.treasureCounts.get w = hunterPlaced.treasureCounts.get w) ∧
      ((∀ v, Cell.treasure 5 ≠ Cell.treasure v) →
        m'.treasureCounts = hunterPlaced.treasureCounts) ∧
      (Cell.treasure 5 = Cell.hunter → m'.hunterPosition = some (0, 1)) ∧
      (Cell.treasure 5 ≠ Cell.hunter → m'.hunterPosition = hunterPlaced.hunterPosition) ∧
      m'.score = hunterPlaced.score ∧ m'.rounds = hunterPlaced.rounds ∧
      m'.rows = hunterPlaced.rows ∧ m'.cols = hunterPlaced.cols ∧
      m'.gameStage = hunterPlaced.gameStage :=
  ⟨by decide, by decide, by decide,
    placeObject_empty_cell hunterPlaced 0 1 (Cell.treasure 5) (by decide)
      (Or.inr (Or.inl ⟨5, Or.inl rfl, rfl⟩))⟩

/-! ## The random obstacle, as a whole -/

/-- C17: `placeRandomObstacle` on a well-formed grid with a draw in `[0, 1)`.
With no Empty cell the model is returned unchanged.  Otherwise the selected
index, the floor of the binary64 product of the draw and the number of empty
cells, lies within `emptyCells`, one cell that was Empty becomes an obstacle,
every other cell is unchanged, and score, rounds, `treasureCounts` and
`hunterPosition` are unchanged. -/
theorem placeRandomObstacle_frame {m : GameModel} (hwf : m.WellFormed) (rnd : Draw)
    (hrnd : rnd.Valid) :
    ((∀ r c, m.grid.cell r c ≠ some Cell.empty) → m.placeRandomObstacle rnd = some m) ∧
    ((∃ r c, m.grid.cell r c = some Cell.empty) →
      randomIndex rnd m.emptyCells.length < m.emptyCells.length ∧
      ∃ m' p, m.placeRandomObstacle rnd = some m' ∧
        m.emptyCells[randomIndex rnd m.emptyCells.length]? = some p ∧
        m.grid.cell p.1 p.2 = some Cell.empty ∧
        m'.grid.cell p.1 p.2 = some Cell.obstacle ∧
        (∀ r c, (r, c) ≠ p → m'.grid.cell r c = m.grid.cell r c) ∧
        m'.score = m.score ∧ m'.rounds = m.rounds ∧
        m'.treasureCounts = m.treasureCounts ∧ m'.hunterPosition = m.hunterPosition) := by
  constructor
  · intro hnone
    rcases placeRandomObstacle_eq hwf rnd hrnd with ⟨_, h⟩ | ⟨p, hp, _⟩
    · exact h
    · exact absurd ((mem_emptyCells m p).mp hp).2 (hnone p.1 p.2)
  · rintro ⟨r, c, hrc⟩
    have hin : r < m.rows ∧ c < m.cols := (hwf.cell_isSome r c).mp (by rw [hrc]; rfl)
    have hmem : (r, c) ∈ m.emptyCells := (mem_emptyCells m (r, c)).mpr ⟨hin, hrc⟩
    have hlen : 0 < m.emptyCells.length := List.length_pos_of_mem hmem
    have hidx := randomIndex_lt rnd hrnd _ hlen
    refine ⟨hidx, ?_⟩
    obtain ⟨⟨row, col⟩, hp⟩ : ∃ p, m.emptyCells[randomIndex rnd m.emptyCells.length]? = some p :=
      ⟨_, List.getElem?_eq_getElem hidx⟩
    have hpmem : (row, col) ∈ m.emptyCells := List.mem_iff_getElem?.mpr ⟨_, hp⟩
    have hpe := ((mem_emptyCells m (row, col)).mp hpmem).2
    refine ⟨{ m with grid := m.grid.setCell row col Cell.obstacle }, (row, col), ?_, hp, hpe,
      ?_, ?_, rfl, rfl, rfl, rfl⟩
    · unfold GameModel.placeRandomObstacle
      rw [if_pos (all_cells_readable hwf)]
      simp only [hlen, gt_iff_lt, if_true, hp]
    · exact Grid.cell_setCell_self _ _ _ _ (by rw [hpe]; rfl)
    · intro r' c' hne
      exact Grid.cell_setCell_ne _ _ _ _ _ _ hne

/-- C17 on concrete games: on `fullGrid`, which has no Empty cell, nothing
changes; on `setupA` with the draw 11/32 the cell (1,4) is selected (index 7 of
the 23 empty cells); with the draw 2573485501354569 / 2 ^ 52 and 7 empty cells
the exact product is `4 - 2 ^ -52`, which rounds to 4, and the index is 4. -/
theorem placeRandomObstacle_frame_witness :
    (fullGrid.WellFormed ∧ fullGrid.placeRandomObstacle ⟨11, 5⟩ = some fullGrid) ∧
    (setupA.WellFormed ∧ setupA.grid.cell 1 4 = some Cell.empty ∧
      randomIndex ⟨11, 5⟩ setupA.emptyCells.length < setupA.emptyCells.length ∧
      setupA.emptyCells[randomIndex ⟨11, 5⟩ setupA.emptyCells.length]? = some (1, 4)) ∧
    randomIndex ⟨2573485501354569, 52⟩ 7 = 4 :=
  ⟨⟨by decide,
      (placeRandomObstacle_frame (m := fullGrid) (by decide) ⟨11, 5⟩ (by decide)).1 (by
        intro r c
        have hall : ∀ cells ∈ fullGrid.grid, ∀ x ∈ cells, x ≠ Cell.empty := by decide
        intro h
        unfold Grid.cell at h
        cases hr : fullGrid.grid[r]? with
        | none => rw [hr] at h; simp at h
        | some cells =>
          rw [hr] at h
          exact hall cells (List.mem_iff_getElem?.mpr ⟨r, hr⟩) Cell.empty
            (List.mem_iff_getElem?.mpr ⟨c, h⟩) rfl)⟩,
    ⟨by decide, by decide,
      ((placeRandomObstacle_frame (m := setupA) (by decide) ⟨11, 5⟩ (by decide)).2
        ⟨1, 4, by decide⟩).1,
      by decide⟩,
    by decide⟩

/-! ## A plain move -/

/-- C18, as the code behaves: in the game `hunterPlaced` with the round counter
at `2 ^ 53`, the step right onto the empty cell (0,1) succeeds and the round
counter stays as it was: `rounds++` rounds to binary64. -/
theorem moveHunter_plain_rounded :
    saturatedRounds.hunterPosition = some (0, 0) ∧
    saturatedRounds.grid.cell 0 0 = some Cell.hunter ∧
    saturatedRounds.grid.cell 0 1 = some Cell.empty ∧
    ∃ m', saturatedRounds.moveHunter "d" ⟨0, 1⟩ = some (true, m') ∧
      m'.hunterPosition = some (0, 1) ∧
      m'.rounds = saturatedRounds.rounds ∧ m'.rounds ≠ saturatedRounds.rounds + 1 := by
  refine ⟨by decide, by decide, by decide,
    (({ saturatedRounds with grid := saturatedRounds.grid.setCell 0 0 Cell.empty } :
      GameModel).arrive 0 1 Cell.hunter).2, ?_⟩
  decide

/-- C18, amended: with the hunter at `(row, col)`, a target in bounds that is
neither an obstacle nor a treasure and `rounds` below `2 ^ 53`, `moveHunter`
returns `true`; afterwards the source cell is Empty, the target cell is the
hunter, `hunterPosition` is the target, `rounds` has grown by one, and the
score, the counts and every other cell are unchanged. -/
theorem moveHunter_plain (m : GameModel) (direction : String) (rnd : Draw) (row col : Nat)
    (newRow newCol : Int) (target : Cell)
    (hpos : m.hunterPosition = some (row, col))
    (hhunter : m.grid.cell row col = some Cell.hunter)
    (ht : moveTarget direction row col = some (newRow, newCol))
    (hin : 0 ≤ newRow ∧ newRow < (m.rows : Int) ∧ 0 ≤ newCol ∧ newCol < (m.cols : Int))
    (htarget : m.grid.cell newRow.toNat newCol.toNat = some target)
    (hobs : target ≠ Cell.obstacle) (htre : ∀ v, target ≠ Cell.treasure v)
    (hrounds : m.rounds < 2 ^ 53) :
    ∃ m', m.moveHunter direction rnd = some (true, m') ∧
      m'.grid.cell row col = some Cell.empty ∧
      m'.grid.cell newRow.toNat newCol.toNat = some Cell.hunter ∧
      m'.hunterPosition = some (newRow.toNat, newCol.toNat) ∧
      m'.rounds = m.rounds + 1 ∧
      m'.score = m.score ∧ m'.treasureCounts = m.treasureCounts ∧
      (∀ r c, (r, c) ≠ (row, col) → (r, c) ≠ (newRow.toNat, newCol.toNat) →
        m'.grid.cell r c = m.grid.cell r c) := by
  have hne : (newRow.toNat, newCol.toNat) ≠ (row, col) :=
    moveTarget_ne direction row col newRow newCol ht hin.1 hin.2.2.1
  have hoob : ¬(newRow < 0 ∨ newRow ≥ (m.rows : Int) ∨ newCol < 0 ∨ newCol ≥ (m.cols : Int)) := by
    omega
  have htar1 : (m.grid.setCell row col Cell.empty).cell newRow.toNat newCol.toNat =
      some target := by
    rw [Grid.cell_setCell_ne _ _ _ _ _ _ hne, htarget]
  have hadd : numAdd m.rounds 1 = m.rounds + 1 := numAdd_of_le _ _ (by omega)
  refine ⟨{ m with
      grid := (m.grid.setCell row col Cell.empty).setCell newRow.toNat newCol.toNat Cell.hunter
      hunterPosition := some (newRow.toNat, newCol.toNat)
      rounds := m.rounds + 1 }, ?_, ?_, ?_, rfl, rfl, rfl, rfl, ?_⟩
  · simp only [GameModel.moveHunter, hpos, ht, if_neg hoob, htarget, if_neg hobs, hhunter, htar1]
    cases target with
    | treasure v => exact absurd rfl (htre v)
    | obstacle => exact absurd rfl hobs
    | empty => simp [GameModel.arrive, hpos, hadd]
    | hunter => simp [GameModel.arrive, hpos, hadd]
  · show Grid.cell (Grid.setCell _ newRow.toNat newCol.toNat Cell.hunter) row col = _
    rw [Grid.cell_setCell_ne _ _ _ _ _ _ (Ne.symm hne)]
    exact Grid.cell_setCell_self _ _ _ _ (by rw [hhunter]; rfl)
  · exact Grid.cell_setCell_self _ _ _ _ (by rw [htar1]; rfl)
  · intro r c h1 h2
    show Grid.cell (Grid.setCell _ newRow.toNat newCol.toNat Cell.hunter) r c = _
    rw [Grid.cell_setCell_ne _ _ _ _ _ _ h2, Grid.cell_setCell_ne _ _ _ _ _ _ h1]

/-- C18 amended, on the game `hunterPlaced`: the step right onto the empty cell
(0,1) gives the game `wandered`, one round played, score 0, no obstacle
spawned. -/
theorem moveHunter_plain_witness :
    hunterPlaced.hunterPosition = some (0, 0) ∧
    hunterPlaced.grid.cell 0 0 = some Cell.hunter ∧
    moveTarget "d" 0 0 = some (0, 1) ∧ hunterPlaced.grid.cell 0 1 = some Cell.empty ∧
    hunterPlaced.rounds < 2 ^ 53 ∧
    hunterPlaced.moveHunter "d" ⟨1, 3⟩ = some (true, wandered) ∧
    wandered.grid.countCells Cell.obstacle = 0 ∧
    ∃ m', hunterPlaced.moveHunter "d" ⟨1, 3⟩ = some (true, m') ∧
      m'.grid.cell 0 0 = some Cell.empty ∧
      m'.grid.cell 0 1 = some Cell.hunter ∧
      m'.hunterPosition = some (0, 1) ∧
      m'.rounds = hunterPlaced.rounds + 1 ∧
      m'.score = hunterPlaced.score ∧ m'.treasureCounts = hunterPlaced.treasureCounts ∧
      (∀ r c, (r, c) ≠ (0, 0) → (r, c) ≠ (0, 1) →
        m'.grid.cell r c = hunterPlaced.grid.cell r c) :=
  ⟨by decide, by decide, by decide, by decide, by decide, by decide, by decide,
    moveHunter_plain hunterPlaced "d" ⟨1, 3⟩ 0 0 0 1 Cell.empty (by decide) (by decide)
      (by decide) (by decide) (by decide) (by decide) (by intro v; exact Cell.noConfusion)
      (by decide)⟩

/-! ## The mobility query -/

theorem canMoveFrom_spec {m : GameModel} (hwf : m.WellFormed) (row col : Nat)
    (dirs : List (Int × Int)) :
    ∃ b, m.canMoveFrom row col dirs = some b ∧
      (b = true ↔ ∃ d ∈ dirs, m.passable ((row : Int) + d.1) ((col : Int) + d.2)) := by
  induction dirs with
  | nil => exact ⟨false, rfl, by simp⟩
  | cons d rest ih =>
    obtain ⟨r, c⟩ := d
    obtain ⟨b, hb, hiff⟩ := ih
    unfold GameModel.canMoveFrom
    simp only []
    by_cases hin : (row : Int) + r ≥ 0 ∧ (row : Int) + r < (m.rows : Int) ∧
        (col : Int) + c ≥ 0 ∧ (col : Int) + c < (m.cols : Int)
    · rw [if_pos hin]
      have hsome := (hwf.cell_isSome ((row : Int) + r).toNat ((col : Int) + c).toNat).mpr
        ⟨by omega, by omega⟩
      cases hc : m.grid.cell ((row : Int) + r).toNat ((col : Int) + c).toNat with
      | none => rw [hc] at hsome; simp at hsome
      | some x =>
        simp only []
        by_cases hx : x = Cell.obstacle
        · rw [if_neg (by simpa using hx)]
          refine ⟨b, hb, ?_⟩
          rw [hiff]
          constructor
          · rintro ⟨d, hd, hp⟩
            exact ⟨d, List.mem_cons_of_mem _ hd, hp⟩
          · rintro ⟨d, hd, hp⟩
            rcases List.mem_cons.mp hd with rfl | hd
            · exact absurd (by rw [hc, hx]) hp.2
            · exact ⟨d, hd, hp⟩
        · rw [if_pos hx]
          refine ⟨true, rfl, ?_⟩
          simp only [true_iff]
          refine ⟨(r, c), List.mem_cons_self _ _, ⟨by omega, ?_⟩⟩
          rw [hc]
          simpa using hx
    · rw [if_neg hin]
      refine ⟨b, hb, ?_⟩
      rw [hiff]
      constructor
      · rintro ⟨d, hd, hp⟩
        exact ⟨d, List.mem_cons_of_mem _ hd, hp⟩
      · rintro ⟨d, hd, hp⟩
        rcases List.mem_cons.mp hd with rfl | hd
        · exact absurd (by have := hp.1; omega) hin
        · exact ⟨d, hd, hp⟩

/-- C14: `canHunterMove` returns `false` when no hunter is placed; with the
hunter at `(row, col)` it returns `true` exactly when one of the four cells
above, below, left and right of it is inside the grid and not an obstacle.  It
is a query: the method writes no field, and the embedding returns the boolean
alone. -/
theorem canHunterMove_spec {m : GameModel} (hwf : m.WellFormed) :
    (m.hunterPosition = none → m.canHunterMove = some false) ∧
    (∀ row col, m.hunterPosition = some (row, col) →
      ∃ b, m.canHunterMove = some b ∧
        (b = true ↔
          (m.passable ((row : Int) - 1) col ∨ m.passable ((row : Int) + 1) col ∨
            m.passable row ((col : Int) - 1) ∨ m.passable row ((col : Int) + 1)))) := by
  constructor
  · intro h
    unfold GameModel.canHunterMove
    rw [h]
  · intro row col h
    obtain ⟨b, hb, hiff⟩ := canMoveFrom_spec hwf row col [(-1, 0), (1, 0), (0, -1), (0, 1)]
    refine ⟨b, ?_, ?_⟩
    · unfold GameModel.canHunterMove
      rw [h]
      exact hb
    · rw [hiff]
      simp only [List.mem_cons, List.mem_singleton, exists_eq_or_imp, exists_eq_left,
        List.not_mem_nil, false_and, exists_false, or_false, add_zero, Int.add_neg_one,
        ← sub_eq_add_neg]

/-- C14 on concrete games: in `cornered` the hunter at (0,0) has a passable
neighbour (the treasure on its right) and the query is `true`; in `fullGrid` every
neighbour is an obstacle or outside and it is `false`; without a hunter it is
`false`. -/
theorem canHunterMove_spec_witness :
    cornered.WellFormed ∧ cornered.hunterPosition = some (0, 0) ∧
    cornered.canHunterMove = some true ∧ cornered.passable 0 1 ∧
    fullGrid.canHunterMove = some false ∧
    (GameModel.new 5 5).canHunterMove = some false :=
  ⟨by decide, by decide, by decide, by decide, by decide,
    (canHunterMove_spec (wellFormed_new 5 5)).1 rfl⟩

/-! ## The mobility query and the moves -/

theorem moveHunter_fails_iff {m : GameModel} (hwf : m.WellFormed) (direction : String)
    (rnd : Draw) (row col : Nat) (newRow newCol : Int)
    (hpos : m.hunterPosition = some (row, col))
    (ht : moveTarget direction row col = some (newRow, newCol)) :
    (m.moveHunter direction rnd).map Prod.fst = some false ↔ ¬m.passable newRow newCol := by
  by_cases hoob : newRow < 0 ∨ newRow ≥ (m.rows : Int) ∨ newCol < 0 ∨ newCol ≥ (m.cols : Int)
  · have hnp : ¬m.passable newRow newCol := fun hp => by have := hp.1; omega
    simp only [GameModel.moveHunter, hpos, ht, if_pos hoob, Option.map_some', hnp,
      not_false_eq_true]
  · have hin : 0 ≤ newRow ∧ newRow < (m.rows : Int) ∧ 0 ≤ newCol ∧ newCol < (m.cols : Int) := by
      omega
    have hsome := (hwf.cell_isSome newRow.toNat newCol.toNat).mpr ⟨by omega, by omega⟩
    have hne : (newRow.toNat, newCol.toNat) ≠ (row, col) :=
      moveTarget_ne direction row col newRow newCol ht hin.1 hin.2.2.1
    cases htar : m.grid.cell newRow.toNat newCol.toNat with
    | none => rw [htar] at hsome; simp at hsome
    | some target =>
      have htar1 : (m.grid.setCell row col Cell.empty).cell newRow.toNat newCol.toNat =
          some target := by
        rw [Grid.cell_setCell_ne _ _ _ _ _ _ hne, htar]
      by_cases hobs : target = Cell.obstacle
      · have hnp : ¬m.passable newRow newCol := fun hp => hp.2 (by rw [htar, hobs])
        simp only [GameModel.moveHunter, hpos, ht, if_neg hoob, htar, if_pos hobs,
          Option.map_some', hnp, not_false_eq_true]
      · have hp : m.passable newRow newCol := ⟨hin, by rw [htar]; simpa using hobs⟩
        simp only [hp, not_true_eq_false, iff_false]
        simp only [GameModel.moveHunter, hpos, ht, if_neg hoob, htar, if_neg hobs]
        cases hsrc : m.grid.cell row col with
        | none => simp
        | some hunterObj =>
          simp only [htar1]
          cases target with
          | treasure v =>
            simp only []
            split
            · simp
            · simp [GameModel.arrive]
          | obstacle => exact absurd rfl hobs
          | empty => simp [GameModel.arrive]
          | hunter => simp [GameModel.arrive]

theorem moveTarget_keys (row col : Nat) :
    moveTarget "w" row col = some ((row : Int) - 1, (col : Int)) ∧
    moveTarget "s" row col = some ((row : Int) + 1, (col : Int)) ∧
    moveTarget "a" row col = some ((row : Int), (col : Int) - 1) ∧
    moveTarget "d" row col = some ((row : Int), (col : Int) + 1) := by
  refine ⟨?_, ?_, ?_, ?_⟩ <;> simp [moveTarget]

/-- C19: with a hunter placed on a well-formed grid, `canHunterMove()` returns
`false` if and only if `moveHunter` returns `false` for each of the four
directions 'w', 'a', 's', 'd'. -/
theorem canHunterMove_false_iff_no_move {m : GameModel} (hwf : m.WellFormed) (rnd : Draw)
    (row col : Nat) (hpos : m.hunterPosition = some (row, col)) :
    m.canHunterMove = some false ↔
      ((m.moveHunter "w" rnd).map Prod.fst = some false ∧
        (m.moveHunter "a" rnd).map Prod.fst = some false ∧
        (m.moveHunter "s" rnd).map Prod.fst = some false ∧
        (m.moveHunter "d" rnd).map Prod.fst = some false) := by
  obtain ⟨hw, hs, ha, hd⟩ := moveTarget_keys row col
  rw [moveHunter_fails_iff hwf "w" rnd row col _ _ hpos hw,
    moveHunter_fails_iff hwf "a" rnd row col _ _ hpos ha,
    moveHunter_fails_iff hwf "s" rnd row col _ _ hpos hs,
    moveHunter_fails_iff hwf "d" rnd row col _ _ hpos hd]
  obtain ⟨b, hb, hiff⟩ := (canHunterMove_spec hwf).2 row col hpos
  rw [hb]
  cases b with
  | false =>
    have hnot : ¬(m.passable ((row : Int) - 1) col ∨ m.passable ((row : Int) + 1) col ∨
        m.passable row ((col : Int) - 1) ∨ m.passable row ((col : Int) + 1)) := by
      rw [← hiff]; simp
    simp only [true_iff]
    exact ⟨fun h => hnot (Or.inl h), fun h => hnot (Or.inr (Or.inr (Or.inl h))),
      fun h => hnot (Or.inr (Or.inl h)), fun h => hnot (Or.inr (Or.inr (Or.inr h)))⟩
  | true =>
    have hyes := hiff.mp rfl
    simp only [Option.some.injEq, Bool.true_eq_false, false_iff, not_and]
    intro h1 h2 h3 h4
    rcases hyes with h | h | h | h
    · exact h1 h
    · exact h3 h
    · exact h2 h
    · exact h4 h

/-- C19 on concrete games: in `fullGrid` the query is `false` and each of the four
moves returns `false`; in `cornered` the query is `true` and the move right
succeeds. -/
theorem canHunterMove_false_iff_no_move_witness :
    fullGrid.WellFormed ∧ fullGrid.hunterPosition = some (0, 0) ∧
    fullGrid.canHunterMove = some false ∧
    ((fullGrid.moveHunter "w" ⟨0, 1⟩).map Prod.fst = some false ∧
      (fullGrid.moveHunter "a" ⟨0, 1⟩).map Prod.fst = some false ∧
      (fullGrid.moveHunter "s" ⟨0, 1⟩).map Prod.fst = some false ∧
      (fullGrid.moveHunter "d" ⟨0, 1⟩).map Prod.fst = some false) ∧
    cornered.canHunterMove = some true ∧
    (cornered.moveHunter "d" ⟨0, 1⟩).map Prod.fst = some true :=
  ⟨by decide, by decide, by decide,
    (canHunterMove_false_iff_no_move (m := fullGrid) (by decide) ⟨0, 1⟩ 0 0 (by decide)).mp
      (by decide),
    by decide, by decide⟩

/-! ## Conservation of value -/

theorem placeRandomObstacle_ledger (m m' : GameModel) (rnd : Draw)
    (h : m.placeRandomObstacle rnd = some m') :
    m'.score = m.score ∧ m'.treasureCounts = m.treasureCounts := by
  rcases placeRandomObstacle_cases m m' rnd h with e | ⟨p, _, e⟩ <;> rw [e] <;> exact ⟨rfl, rfl⟩

theorem TypedGrid.cell {m : GameModel} (h : m.TypedGrid) (r c v : Nat)
    (hc : m.grid.cell r c = some (Cell.treasure v)) : v = 5 ∨ v = 6 ∨ v = 7 ∨ v = 8 := by
  unfold Grid.cell at hc
  cases hr : m.grid[r]? with
  | none => rw [hr] at hc; simp at hc
  | some cells =>
    rw [hr] at hc
    exact h cells (List.mem_iff_getElem?.mpr ⟨r, hr⟩) (Cell.treasure v)
      (List.mem_iff_getElem?.mpr ⟨c, hc⟩)

theorem totalValue_dec (m m' : GameModel) (v : Nat) (hv : v = 5 ∨ v = 6 ∨ v = 7 ∨ v = 8)
    (hscore : m'.score = m.score + v) (hcounts : m'.treasureCounts = m.treasureCounts.dec v) :
    m'.totalValue = m.totalValue := by
  unfold GameModel.totalValue
  rw [hscore, hcounts]
  rcases hv with h | h | h | h <;> subst h <;> simp [TreasureCounts.dec] <;> omega

/-- One call of `moveHunter` on a grid whose treasures have values 5..8, where
the score stays within `2 ^ 53` whichever treasure is collected. -/
theorem moveHunter_totalValue (m m' : GameModel) (direction : String) (rnd : Draw) (b : Bool)
    (htyped : m.TypedGrid)
    (hbound : ∀ r c v, m.grid.cell r c = some (Cell.treasure v) → m.score + v ≤ 2 ^ 53)
    (h : m.moveHunter direction rnd = some (b, m')) :
    m'.totalValue = m.totalValue ∧ m.score ≤ m'.score := by
  rcases moveHunter_cases m m' direction rnd b h with ⟨_, hm⟩ |
    ⟨row, col, newRow, newCol, hunterObj, target, mid, _, _, _, _, htar, _, _, hm, hmid⟩
  · rw [hm]; exact ⟨rfl, Nat.le_refl _⟩
  · rcases hmid with ⟨_, hmid⟩ | ⟨v, hv, hplace⟩
    · rw [hm, hmid]
      exact ⟨rfl, Nat.le_refl _⟩
    · subst hv
      have hvalid := TypedGrid.cell htyped _ _ v htar
      obtain ⟨hscore, hcounts⟩ := placeRandomObstacle_ledger _ mid rnd hplace
      have hs' : m'.score = m.score + v := by
        rw [hm]
        exact hscore.trans (numAdd_of_le _ _ (hbound _ _ v htar))
      have hc' : m'.treasureCounts = m.treasureCounts.dec v := by rw [hm]; exact hcounts
      exact ⟨totalValue_dec m m' v hvalid hs' hc', by omega⟩

theorem Inv.typedGrid {m : GameModel} (h : m.Inv) : m.TypedGrid := by
  intro cells hcells x hx
  cases x with
  | treasure v =>
    show v = 5 ∨ v = 6 ∨ v = 7 ∨ v = 8
    obtain ⟨r, hr⟩ := List.mem_iff_getElem?.mp hcells
    obtain ⟨c, hc⟩ := List.mem_iff_getElem?.mp hx
    have hcell : m.grid.cell r c = some (Cell.treasure v) := by
      simp [Grid.cell, hr, hc]
    by_contra hcon
    have hzero := TreasureCounts.get_of_not_key m.treasureCounts v hcon
    have hposc := Grid.countP_pos m.grid (fun y => y == Cell.treasure v) _ _ _ hcell (by simp)
    have := h.2.2.1 v
    unfold Grid.countCells at this
    rw [hzero] at this
    omega
  | empty => trivial
  | obstacle => trivial
  | hunter => trivial

theorem Inv.counts_nonneg {m : GameModel} (h : m.Inv) :
    0 ≤ m.treasureCounts.c5 ∧ 0 ≤ m.treasureCounts.c6 ∧ 0 ≤ m.treasureCounts.c7 ∧
      0 ≤ m.treasureCounts.c8 := by
  have h5 := h.2.2.1 5
  have h6 := h.2.2.1 6
  have h7 := h.2.2.1 7
  have h8 := h.2.2.1 8
  simp only [TreasureCounts.get] at h5 h6 h7 h8
  norm_num at h5 h6 h7 h8
  omega

theorem Inv.score_le_totalValue {m : GameModel} (h : m.Inv) : (m.score : Int) ≤ m.totalValue := by
  obtain ⟨h5, h6, h7, h8⟩ := Inv.counts_nonneg h
  unfold GameModel.totalValue
  omega

/-- On a state satisfying the invariant, the score and the value of a treasure
still on the grid are together at most the quantity `totalValue`. -/
theorem Inv.score_add_le {m : GameModel} (h : m.Inv) (r c v : Nat)
    (hc : m.grid.cell r c = some (Cell.treasure v)) :
    (m.score : Int) + (v : Int) ≤ m.totalValue := by
  obtain ⟨h5, h6, h7, h8⟩ := Inv.counts_nonneg h
  have hpos := Grid.countP_pos m.grid (fun y => y == Cell.treasure v) r c _ hc (by simp)
  have hcnt := h.2.2.1 v
  unfold Grid.countCells at hcnt
  have hv := TypedGrid.cell (Inv.typedGrid h) r c v hc
  unfold GameModel.totalValue
  rcases hv with e | e | e | e <;> subst e <;> simp only [TreasureCounts.get] at hcnt <;>
    norm_num at hcnt <;> omega

theorem MovesFrom.facts {m0 m : GameModel} (hinv : m0.Inv) (hb : m0.totalValue ≤ 2 ^ 53)
    (h : MovesFrom m0 m) :
    m.Inv ∧ m.totalValue = m0.totalValue ∧ m0.score ≤ m.score := by
  induction h with
  | start => exact ⟨hinv, rfl, Nat.le_refl _⟩
  | @move m1 m2 direction rnd b _ hstep ih =>
    obtain ⟨hi, hv, hs⟩ := ih
    have hbound : ∀ r c v, m1.grid.cell r c = some (Cell.treasure v) →
        m1.score + v ≤ 2 ^ 53 := by
      intro r c v hc
      have h1 := Inv.score_add_le hi r c v hc
      rw [hv] at h1
      have h2 : ((m1.score + v : Nat) : Int) ≤ ((2 ^ 53 : Nat) : Int) := by
        push_cast
        omega
      exact_mod_cast h2
    obtain ⟨hv', hs'⟩ := moveHunter_totalValue _ _ direction rnd b (Inv.typedGrid hi) hbound hstep
    exact ⟨moveHunter_inv direction rnd b hi hstep, by rw [hv', hv], Nat.le_trans hs hs'⟩

theorem reachable_setupA : Reachable setupA :=
  Reachable.place 0 1 (Cell.treasure 5) true
    (Reachable.place 0 0 Cell.hunter true (Reachable.fresh 5 5) trivial
      (by decide : (GameModel.new 5 5).placeObject 0 0 Cell.hunter = some (true, hunterPlaced)))
    (Or.inl rfl)
    (by decide : hunterPlaced.placeObject 0 1 (Cell.treasure 5) = some (true, setupA))

/-- C20, as the code behaves: the quantity `score + 5 * treasureCounts[5] + … +
8 * treasureCounts[8]` is not kept by every call.  With a treasure object of
value 9 on the target no count of the four keys moves and the quantity goes
from 0 to 9; with the score at `2 ^ 53` the treasure of value 5 adds 4 to the
score and the quantity drops by 1. -/
theorem value_not_conserved :
    (nineGame.grid.cell 0 1 = some (Cell.treasure 9) ∧ nineGame.totalValue = 0 ∧
      ∃ m', nineGame.moveHunter "d" ⟨0, 1⟩ = some (true, m') ∧
        m'.treasureCounts = nineGame.treasureCounts ∧ m'.totalValue = 9) ∧
    (saturated.TypedGrid ∧
      ∃ m', saturated.moveHunter "d" ⟨0, 1⟩ = some (true, m') ∧
        m'.totalValue = saturated.totalValue - 1) := by
  refine ⟨⟨by decide, by decide, nineGame.afterPickup 0 0 (0, 0) 0 1 Cell.hunter 9, ?_⟩,
    ⟨by decide, saturated.afterPickup 0 0 (0, 0) 0 1 Cell.hunter 5, ?_⟩⟩
  · decide
  · decide

/-- C20, amended: on a grid whose treasures have values 5..8 and with the score
at most `2 ^ 53 - 8`, a call of `moveHunter`, whatever it returns and whatever
the draw, leaves `score + 5 * treasureCounts[5] + 6 * treasureCounts[6] +
7 * treasureCounts[7] + 8 * treasureCounts[8]` as it was and does not lower the
score.  Hence over any sequence of moves from a state `m0` of a game whose
quantity is at most `2 ^ 53`, the quantity stays that of `m0`, the score does not
decrease and it never exceeds the quantity of `m0`, which at the end of setup
(score 0) is the total value of the treasures placed. -/
theorem value_conserved_by_moves :
    (∀ (m m' : GameModel) (direction : String) (rnd : Draw) (b : Bool),
      m.TypedGrid → m.score + 8 ≤ 2 ^ 53 → m.moveHunter direction rnd = some (b, m') →
      m'.totalValue = m.totalValue ∧ m.score ≤ m'.score) ∧
    (∀ m0 m : GameModel, Reachable m0 → m0.totalValue ≤ 2 ^ 53 → MovesFrom m0 m →
      m.totalValue = m0.totalValue ∧ m0.score ≤ m.score ∧ (m.score : Int) ≤ m0.totalValue) := by
  constructor
  · intro m m' direction rnd b ht hs h
    refine moveHunter_totalValue m m' direction rnd b ht ?_ h
    intro r c v hc
    have hv := TypedGrid.cell ht r c v hc
    omega
  · intro m0 m hreach hb hmoves
    obtain ⟨hi, hv, hs⟩ := MovesFrom.facts hreach.inv hb hmoves
    refine ⟨hv, hs, ?_⟩
    rw [← hv]
    exact Inv.score_le_totalValue hi

/-- C20 amended, on the game `setupA` (one treasure of value 5, score 0): the
move right with the draw 11/32 collects it; the quantity is 5 before and after,
and the score 5 does not exceed it. -/
theorem value_conserved_by_moves_witness :
    setupA.TypedGrid ∧ setupA.score + 8 ≤ 2 ^ 53 ∧ setupA.totalValue ≤ 2 ^ 53 ∧
    setupA.moveHunter "d" ⟨11, 5⟩ = some (true, afterMove) ∧
    setupA.totalValue = 5 ∧ setupA.score = 0 ∧ afterMove.score = 5 ∧
    (afterMove.totalValue = setupA.totalValue ∧ setupA.score ≤ afterMove.score) ∧
    (afterMove.totalValue = setupA.totalValue ∧ setupA.score ≤ afterMove.score ∧
      (afterMove.score : Int) ≤ setupA.totalValue) :=
  ⟨by decide, by decide, by decide, by decide, by decide, by decide, by decide,
    value_conserved_by_moves.1 setupA afterMove "d" ⟨11, 5⟩ true (by decide) (by decide)
      (by decide),
    value_conserved_by_moves.2 setupA afterMove reachable_setupA (by decide)
      (MovesFrom.move "d" ⟨11, 5⟩ true MovesFrom.start (by decide))⟩

/-! ## The performance index -/

/-- The normalisation of the quotient: `2 ^ 52 ≤ a * 2 ^ s / b < 2 ^ 53`. -/
theorem binary64Shift_spec (a b : Nat) (ha : 0 < a) (ha' : a < 2 ^ 53) (hb : 0 < b)
    (hb' : b < 2 ^ 53) :
    b * 2 ^ 52 ≤ a * 2 ^ binary64Shift a b ∧ a * 2 ^ binary64Shift a b < b * 2 ^ 53 := by
  have hhigh : b * 2 ^ 52 ≤ a * 2 ^ (0 + 105) := by
    have h1 : b * 2 ^ 52 ≤ 2 ^ 53 * 2 ^ 52 := Nat.mul_le_mul_right _ (Nat.le_of_lt hb')
    have h2 : 1 * 2 ^ (0 + 105) ≤ a * 2 ^ (0 + 105) := Nat.mul_le_mul_right _ ha
    have h3 : (2 : Nat) ^ 53 * 2 ^ 52 = 1 * 2 ^ (0 + 105) := by norm_num
    omega
  obtain ⟨h1, h2⟩ := shiftFrom_spec a b 105 0 (Or.inl rfl) hhigh
  refine ⟨h1, ?_⟩
  rcases h2 with h2 | h2
  · unfold binary64Shift
    rw [h2]
    have : 1 * 2 ^ 53 ≤ b * 2 ^ 53 := Nat.mul_le_mul_right _ hb
    omega
  · exact h2

/-- The facts about the binary64 quotient `sig / 2 ^ shift` of `a / b` used below:
it is normalised and `sig` is within one half of `a * 2 ^ shift / b`. -/
theorem float64Div_facts (a b : Nat) (ha : 0 < a) (ha' : a < 2 ^ 53) (hb : 0 < b)
    (hb' : b < 2 ^ 53) :
    b * 2 ^ 52 ≤ a * 2 ^ (float64Div a b).2 ∧
    a * 2 ^ (float64Div a b).2 < b * 2 ^ 53 ∧
    2 * ((float64Div a b).1 * b) ≤ 2 * (a * 2 ^ (float64Div a b).2) + b ∧
    2 * (a * 2 ^ (float64Div a b).2) ≤ 2 * ((float64Div a b).1 * b) + b := by
  have hne : a ≠ 0 := by omega
  simp only [float64Div, if_neg hne]
  obtain ⟨h1, h2⟩ := binary64Shift_spec a b ha ha' hb hb'
  obtain ⟨h3, h4⟩ := roundHalfEven_bounds (a * 2 ^ binary64Shift a b) b hb
  exact ⟨h1, h2, h3, h4⟩

theorem toFixed2_bounds (sig shift : Nat) :
    toFixed2 sig shift * (2 * 2 ^ shift) ≤ 200 * sig + 2 ^ shift ∧
    200 * sig + 2 ^ shift < (toFixed2 sig shift + 1) * (2 * 2 ^ shift) := by
  have hpos : 0 < 2 * 2 ^ shift := by positivity
  have hdm := Nat.div_add_mod' (200 * sig + 2 ^ shift) (2 * 2 ^ shift)
  have hr := Nat.mod_lt (200 * sig + 2 ^ shift) hpos
  have he : (2 : Nat) ^ (shift + 1) = 2 * 2 ^ shift := by rw [Nat.pow_succ, Nat.mul_comm]
  unfold toFixed2
  rw [he, Nat.add_mul, Nat.one_mul]
  omega

/-- The two-decimal result is within half a hundredth of the exact quotient
`a / b`, for `200 * a < 2 ^ 53`:  `(2 n - 1) b ≤ 200 a ≤ (2 n + 1) b`. -/
theorem toFixed2_float64Div_near (a b : Nat) (ha : 200 * a < 2 ^ 53) (hb : 0 < b)
    (hb' : b < 2 ^ 53) :
    2 * (toFixed2 (float64Div a b).1 (float64Div a b).2 * b) ≤ 200 * a + b ∧
    200 * a ≤ 2 * (toFixed2 (float64Div a b).1 (float64Div a b).2 * b) + b := by
  by_cases ha0 : a = 0
  · subst ha0
    have h0 : float64Div 0 b = (0, 0) := by simp [float64Div]
    have : toFixed2 (float64Div 0 b).1 (float64Div 0 b).2 = 0 := by rw [h0]; decide
    rw [this]
    omega
  have hapos : 0 < a := Nat.pos_of_ne_zero ha0
  obtain ⟨hN1, _, hR1, hR2⟩ := float64Div_facts a b hapos (by omega) hb hb'
  obtain ⟨hU, hL⟩ := toFixed2_bounds (float64Div a b).1 (float64Div a b).2
  generalize (float64Div a b).1 = M at *
  generalize (2 : Nat) ^ (float64Div a b).2 = P at *
  generalize toFixed2 _ _ = n at *
  have hP : 100 * b < P := by
    by_contra hcon
    have h3 : a * P ≤ a * (100 * b) := Nat.mul_le_mul_left a (by omega)
    have h4 : 100 * a * b < 2 ^ 52 * b := Nat.mul_lt_mul_of_pos_right (by omega) hb
    have h5 : a * (100 * b) = 100 * a * b := by ring
    have h6 : b * 2 ^ 52 = 2 ^ 52 * b := Nat.mul_comm _ _
    omega
  constructor
  · by_contra hcon
    have hc : 200 * a + b + 1 ≤ 2 * (n * b) := by omega
    have h1 := Nat.mul_le_mul_right P hc
    have h2 := Nat.mul_le_mul_right b hU
    nlinarith [h1, h2, hR1, hP]
  · by_contra hcon
    have hc : 2 * (n * b) + b + 1 ≤ 200 * a := by omega
    have h1 := Nat.mul_le_mul_right P hc
    have h2 := Nat.mul_lt_mul_of_pos_right hL hb
    nlinarith [h1, h2, hR2, hP]

/-- The two-decimal result is "0.00" exactly when the exact quotient `a / b` is
below one half of a hundredth. -/
theorem toFixed2_float64Div_eq_zero_iff (a b : Nat) (ha' : a < 2 ^ 53) (hb : 0 < b)
    (hb' : b < 2 ^ 53) :
    toFixed2 (float64Div a b).1 (float64Div a b).2 = 0 ↔ 200 * a < b := by
  constructor
  · intro hz
    by_contra hcon
    have hapos : 0 < a := by omega
    obtain ⟨hN1, hN2, _, hR2⟩ := float64Div_facts a b hapos ha' hb hb'
    obtain ⟨_, hL⟩ := toFixed2_bounds (float64Div a b).1 (float64Div a b).2
    rw [hz] at hL
    generalize (float64Div a b).1 = M at *
    generalize hs : (float64Div a b).2 = s at *
    have hle : b ≤ 200 * a := by omega
    have hM : 2 ^ 52 ≤ M := by
      by_contra hM
      have h1 : M * b ≤ 4503599627370495 * b := Nat.mul_le_mul_right b (by omega)
      have h2 : b * 2 ^ 52 = 4503599627370495 * b + b := by omega
      omega
    have hPle : 2 ^ s ≤ 200 * M + 100 := by
      by_contra hP
      have h1 : (200 * M + 101) * b ≤ 2 ^ s * b := Nat.mul_le_mul_right b (by omega)
      have h2 : b * 2 ^ s ≤ 200 * a * 2 ^ s := Nat.mul_le_mul_right _ hle
      nlinarith [h1, h2, hR2, hb]
    have hPlt : 2 ^ s < 200 * 2 ^ 53 := by
      by_contra hP
      have h1 : a * (200 * 2 ^ 53) ≤ a * 2 ^ s := Nat.mul_le_mul_left a (by omega)
      have h2 : b * 2 ^ 53 ≤ 200 * a * 2 ^ 53 := Nat.mul_le_mul_right _ hle
      have h3 : a * (200 * 2 ^ 53) = 200 * a * 2 ^ 53 := by ring
      omega
    rcases Nat.lt_trichotomy s 60 with h | h | h
    · have h1 : 2 ^ s ≤ 2 ^ 59 := Nat.pow_le_pow_right (by norm_num) (by omega)
      omega
    · subst h
      omega
    · have h1 : 2 ^ 61 ≤ 2 ^ s := Nat.pow_le_pow_right (by norm_num) (by omega)
      omega
  · intro h
    obtain ⟨hlow, _⟩ := toFixed2_float64Div_near a b (by omega) hb hb'
    by_contra hn
    have h1 : 1 * b ≤ toFixed2 (float64Div a b).1 (float64Div a b).2 * b :=
      Nat.mul_le_mul_right b (Nat.pos_of_ne_zero hn)
    omega

/-- C12, as the code behaves: after one step of the hunter onto an empty cell
(the game `wandered`: rounds 1, score 0) the method returns the string "0.00",
whose value is zero although `rounds` is not 0. -/
theorem performanceIndex_zero_after_a_round :
    hunterPlaced.moveHunter "d" ⟨0, 1⟩ = some (true, wandered) ∧
    wandered.rounds = 1 ∧ wandered.score = 0 ∧
    wandered.calculatePerformanceIndex = PerformanceIndex.fixed 0 ∧
    wandered.calculatePerformanceIndex.hundredths = 0 := by
  decide

/-- C12, amended: `calculatePerformanceIndex()` is the Number 0 when `rounds` is
0; when `rounds > 0` it is a two-decimal string, whose value is zero exactly
when `score / rounds < 0.005` (so whenever the score is 0) and is not zero
otherwise. -/
theorem performanceIndex_zero_iff (m : GameModel) (hs : m.score < 2 ^ 53)
    (hr : m.rounds < 2 ^ 53) :
    (m.rounds = 0 → m.calculatePerformanceIndex = PerformanceIndex.number 0) ∧
    (0 < m.rounds → ∃ h, m.calculatePerformanceIndex = PerformanceIndex.fixed h ∧
      (h = 0 ↔ 200 * m.score < m.rounds)) ∧
    (m.calculatePerformanceIndex.hundredths = 0 ↔ m.rounds = 0 ∨ 200 * m.score < m.rounds) := by
  have hfix : 0 < m.rounds → m.calculatePerformanceIndex =
      PerformanceIndex.fixed (toFixed2 (float64Div m.score m.rounds).1
        (float64Div m.score m.rounds).2) := by
    intro hpos
    have hne : m.rounds ≠ 0 := by omega
    simp only [GameModel.calculatePerformanceIndex, if_neg hne]
  refine ⟨?_, ?_, ?_⟩
  · intro h0
    simp only [GameModel.calculatePerformanceIndex, if_pos h0]
  · intro hpos
    exact ⟨_, hfix hpos, toFixed2_float64Div_eq_zero_iff m.score m.rounds hs hpos hr⟩
  · by_cases h0 : m.rounds = 0
    · simp only [GameModel.calculatePerformanceIndex, if_pos h0, PerformanceIndex.hundredths,
        Nat.mul_zero, true_or]
      exact Iff.intro (fun _ => Or.inl h0) (fun _ => trivial)
    · have hpos : 0 < m.rounds := Nat.pos_of_ne_zero h0
      rw [hfix hpos]
      simp only [PerformanceIndex.hundredths, h0, false_or]
      exact toFixed2_float64Div_eq_zero_iff m.score m.rounds hs hpos hr

/-- C12 amended, on concrete games: no round played gives the Number 0; one
round with score 0 gives "0.00"; score 11 in 200 rounds gives a non-zero
value. -/
theorem performanceIndex_zero_iff_witness :
    hunterPlaced.score < 2 ^ 53 ∧ hunterPlaced.rounds < 2 ^ 53 ∧ hunterPlaced.rounds = 0 ∧
    hunterPlaced.calculatePerformanceIndex = PerformanceIndex.number 0 ∧
    (wandered.calculatePerformanceIndex.hundredths = 0 ↔
      wandered.rounds = 0 ∨ 200 * wandered.score < wandered.rounds) ∧
    slowGame11.calculatePerformanceIndex.hundredths ≠ 0 :=
  ⟨by decide, by decide, by decide,
    (performanceIndex_zero_iff hunterPlaced (by decide) (by decide)).1 (by decide),
    (performanceIndex_zero_iff wandered (by decide) (by decide)).2.2,
    by decide⟩

/-- C13, as the code behaves: with score 15 after 200 rounds the exact quotient
is 0.075, halfway between 0.07 and 0.08, and the result is "0.07"; with score 11
after 200 rounds the exact quotient is 0.055, halfway between 0.05 and 0.06, and
the result is "0.06".  One exact tie goes down (to an odd last digit) and the
other goes up: the ties of the exact quotient follow no fixed rule. -/
theorem performanceIndex_ties_not_fixed :
    (slowGame15.score = 15 ∧ slowGame15.rounds = 200 ∧
      2 * (100 * slowGame15.score) = (2 * 7 + 1) * slowGame15.rounds ∧
      slowGame15.calculatePerformanceIndex = PerformanceIndex.fixed 7) ∧
    (slowGame11.score = 11 ∧ slowGame11.rounds = 200 ∧
      2 * (100 * slowGame11.score) = (2 * 5 + 1) * slowGame11.rounds ∧
      slowGame11.calculatePerformanceIndex = PerformanceIndex.fixed 6) := by
  decide

/-- C13, amended: for `rounds > 0` the result is a decimal with exactly two
fractional digits: the binary64 quotient `score / rounds` rounded to the nearest
hundredth (`toFixed2` of `float64Div`).  For scores below `2 ^ 53 / 200` its value
differs from the exact quotient `score / rounds` by at most 0.005.  (When the
exact quotient is halfway between two hundredths, the binary64 quotient decides
which of the two is returned.) -/
theorem performanceIndex_near_quotient (m : GameModel) (hr : 0 < m.rounds)
    (hr' : m.rounds < 2 ^ 53) (hs : 200 * m.score < 2 ^ 53) :
    ∃ h, m.calculatePerformanceIndex = PerformanceIndex.fixed h ∧
      h = toFixed2 (float64Div m.score m.rounds).1 (float64Div m.score m.rounds).2 ∧
      |(h : ℚ) / 100 - (m.score : ℚ) / (m.rounds : ℚ)| ≤ 1 / 200 := by
  have hne : m.rounds ≠ 0 := by omega
  refine ⟨_, by simp only [GameModel.calculatePerformanceIndex, if_neg hne], rfl, ?_⟩
  obtain ⟨h1, h2⟩ := toFixed2_float64Div_near m.score m.rounds hs hr hr'
  generalize toFixed2 _ _ = n at *
  have hbq : (0 : ℚ) < (m.rounds : ℚ) := by exact_mod_cast hr
  have hq : (m.score : ℚ) / (m.rounds : ℚ) * (m.rounds : ℚ) = (m.score : ℚ) :=
    div_mul_cancel₀ _ (ne_of_gt hbq)
  have h1q : (2 : ℚ) * ((n : ℚ) * (m.rounds : ℚ)) ≤ 200 * (m.score : ℚ) + (m.rounds : ℚ) := by
    exact_mod_cast h1
  have h2q : (200 : ℚ) * (m.score : ℚ) ≤ 2 * ((n : ℚ) * (m.rounds : ℚ)) + (m.rounds : ℚ) := by
    exact_mod_cast h2
  generalize (m.score : ℚ) / (m.rounds : ℚ) = q at *
  rw [← hq] at h1q h2q
  have h3 : (2 : ℚ) * n ≤ 200 * q + 1 := by
    have : (2 * (n : ℚ)) * (m.rounds : ℚ) ≤ (200 * q + 1) * (m.rounds : ℚ) := by linarith
    exact le_of_mul_le_mul_right this hbq
  have h4 : (200 : ℚ) * q ≤ 2 * n + 1 := by
    have : (200 * q) * (m.rounds : ℚ) ≤ (2 * (n : ℚ) + 1) * (m.rounds : ℚ) := by linarith
    exact le_of_mul_le_mul_right this hbq
  rw [abs_le]
  constructor <;> linarith

/-- C13 amended, on the game with score 11 after 200 rounds: the result "0.06"
is within 0.005 of 11/200. -/
theorem performanceIndex_near_quotient_witness :
    0 < slowGame11.rounds ∧ slowGame11.rounds < 2 ^ 53 ∧ 200 * slowGame11.score < 2 ^ 53 ∧
    slowGame11.calculatePerformanceIndex = PerformanceIndex.fixed 6 ∧
    ∃ h, slowGame11.calculatePerformanceIndex = PerformanceIndex.fixed h ∧
      h = toFixed2 (float64Div slowGame11.score slowGame11.rounds).1
        (float64Div slowGame11.score slowGame11.rounds).2 ∧
      |(h : ℚ) / 100 - (slowGame11.score : ℚ) / (slowGame11.rounds : ℚ)| ≤ 1 / 200 :=
  ⟨by decide, by decide, by decide, by decide,
    performanceIndex_near_quotient slowGame11 (by decide) (by decide) (by decide)⟩

end TreasureHunter
